import Mathlib

/-!
Verification of the DMS-to-WMS reconciliation and allocation engine
(`dms-bulk-upload-webapp`), a shallow embedding of the Python sources
`hul_processor_interactive.py`, `collect_questions.py` and `sheet_splitter.py`.

Modelling conventions:
* Python floats are modelled as exact rationals (`ℚ`).
* A batch's `available_stock` is `Option ℚ` where `none` stands for `np.inf`
  (the code stores `np.inf` whenever the catalog cell is NaN/missing, see
  `hul_processor_interactive.py:330`); `some q` is the finite value `q`.
* Python dicts that the code only ever iterates in insertion order
  (`batch_inventory`, `product_variants`, the decision caches) are modelled
  as association lists in insertion order.
* `pandas.sort_values` (default quicksort) is determinized as a stable
  insertion sort by the same key; all claims proved about tie order hold of
  this determinization and are flagged where the source leaves ties
  unspecified.
-/

namespace DmsWms

/-! ### Stock arithmetic on `Option ℚ` (`none` = `np.inf`) -/

/-- Stock order `a < b`, with `none` = `+∞` (IEEE semantics of the Python floats). -/
def sLt : Option ℚ → Option ℚ → Bool
  | some x, some y => decide (x < y)
  | some _, none => true
  | none, _ => false

/-- Stock order `a ≤ b`, with `none` = `+∞`. -/
def sLeO : Option ℚ → Option ℚ → Bool
  | _, none => true
  | none, some _ => false
  | some x, some y => decide (x ≤ y)

/-- Stock positivity `0 < a` (`np.inf > 0` is true in Python). -/
def sPos : Option ℚ → Bool
  | some x => decide (0 < x)
  | none => true

/-- Stock nonnegativity `0 ≤ a` (used only in invariants, not in the source). -/
def sNonneg : Option ℚ → Bool
  | some x => decide (0 ≤ x)
  | none => true

/-- Stock credit `a + q` for finite `q` (`np.inf + q = np.inf`). -/
def sAdd (a : Option ℚ) (q : ℚ) : Option ℚ :=
  match a with
  | some x => some (x + q)
  | none => none

/-- Stock debit `a - q` for finite `q` (`np.inf - q = np.inf`). -/
def sSub (a : Option ℚ) (q : ℚ) : Option ℚ :=
  match a with
  | some x => some (x - q)
  | none => none

/-- Stock minimum `min(a, q)` for finite `q`; this is `qty_from_batch = min(batch_stock, remaining)`. -/
def sMinQ (a : Option ℚ) (q : ℚ) : ℚ :=
  match a with
  | some x => min x q
  | none => q

/-- Stock sum `a + b` (`np.inf` absorbs). -/
def sAddO : Option ℚ → Option ℚ → Option ℚ
  | some x, some y => some (x + y)
  | _, _ => none

/-- Stock comparison `a < q` for finite `q` (`np.inf < q` is false). -/
def sLtQ : Option ℚ → ℚ → Bool
  | some x, q => decide (x < q)
  | none, _ => false

/-! ### String helpers -/

/-- Lexicographic `≤` on char lists: Python string comparison by code point. -/
def charListLe : List Char → List Char → Bool
  | [], _ => true
  | _ :: _, [] => false
  | a :: as, b :: bs => if a = b then charListLe as bs else decide (a < b)

/-- Python `s1 <= s2` (lexicographic by code point). -/
def strLe (a b : String) : Bool := charListLe a.data b.data

/-- ASCII lowercasing of one character (Python `str.lower` restricted to the
ASCII names this data carries). -/
def charLower (c : Char) : Char :=
  if c = 'A' then 'a' else if c = 'B' then 'b' else if c = 'C' then 'c'
  else if c = 'D' then 'd' else if c = 'E' then 'e' else if c = 'F' then 'f'
  else if c = 'G' then 'g' else if c = 'H' then 'h' else if c = 'I' then 'i'
  else if c = 'J' then 'j' else if c = 'K' then 'k' else if c = 'L' then 'l'
  else if c = 'M' then 'm' else if c = 'N' then 'n' else if c = 'O' then 'o'
  else if c = 'P' then 'p' else if c = 'Q' then 'q' else if c = 'R' then 'r'
  else if c = 'S' then 's' else if c = 'T' then 't' else if c = 'U' then 'u'
  else if c = 'V' then 'v' else if c = 'W' then 'w' else if c = 'X' then 'x'
  else if c = 'Y' then 'y' else if c = 'Z' then 'z' else c

/-- Python `s.lower()` (ASCII). -/
def lowerStr (s : String) : String := String.mk (s.data.map charLower)

/-- Python whitespace for `split()`/`strip()` (ASCII subset). -/
def isSpaceCh (c : Char) : Bool :=
  decide (c = ' ') || decide (c = '\t') || decide (c = '\n') || decide (c = '\r')

/-- Drop leading whitespace. -/
def dropLeadingWs : List Char → List Char
  | [] => []
  | c :: cs => if isSpaceCh c then dropLeadingWs cs else c :: cs

/-- Python `s.strip()`. -/
def stripStr (s : String) : String :=
  String.mk ((dropLeadingWs (dropLeadingWs s.data).reverse).reverse)

/-- Python `s.split()`: maximal nonempty runs of non-whitespace (the first
argument accumulates the current word, reversed). -/
def wordsAux : List Char → List Char → List (List Char)
  | acc, [] => if acc = [] then [] else [acc.reverse]
  | acc, c :: cs =>
    if isSpaceCh c then
      (if acc = [] then wordsAux [] cs else acc.reverse :: wordsAux [] cs)
    else wordsAux (c :: acc) cs

/-- Python `" ".join(words)`. -/
def joinSpace : List (List Char) → List Char
  | [] => []
  | [w] => w
  | w :: ws => w ++ ' ' :: joinSpace ws

/-- Source `normalize_name` (`hul_processor_interactive.py:16-20`):
`" ".join(str(name).strip().split())`; the NaN input case is out of scope here
(rows with missing names are dropped before use, and `.split()` already
ignores leading/trailing whitespace). -/
def normalizeName (s : String) : String := String.mk (joinSpace (wordsAux [] s.data))

/-- Tests whether `needle` is a prefix of `hay` (char lists). -/
def headMatch : List Char → List Char → Bool
  | [], _ => true
  | _ :: _, [] => false
  | a :: as, b :: bs => a = b && headMatch as bs

/-- Python `needle in hay`: contiguous substring test. -/
def subStr (needle : List Char) : List Char → Bool
  | [] => needle.isEmpty
  | b :: bs => headMatch needle (b :: bs) || subStr needle bs

/-- Length of a longest common subsequence of two char lists. -/
def lcsLen : List Char → List Char → Nat
  | [], _ => 0
  | _ :: _, [] => 0
  | a :: as, b :: bs =>
    if a = b then lcsLen as bs + 1
    else max (lcsLen (a :: as) bs) (lcsLen as (b :: bs))
termination_by x y => x.length + y.length
decreasing_by all_goals (simp only [List.length_cons]; omega)

/-- Model of `fuzz.ratio(s1, s2)` as computed by fuzzywuzzy's python-Levenshtein backend:
`round(100 * (lensum - dist)/lensum)` where `dist` is the Levenshtein distance
with substitution cost 2, i.e. `lensum - 2*LCS`; hence `round(200*LCS/lensum)`.
(Python's `round` is banker's rounding; Mathlib's `round` rounds halves up. The
two differ only at exact half-integers, which no theorem below depends on.) -/
def fuzzRatio (a b : List Char) : ℤ :=
  if a.length + b.length = 0 then 100
  else round ((200 * (lcsLen a b : ℚ)) / ((a.length : ℚ) + (b.length : ℚ)))

/-- The related-product heuristic (`hul_processor_interactive.py:461-469`):
both lowercased/stripped names ≥ 10 chars and one a substring of the other,
or `fuzz.ratio ≥ 80`. -/
def isRelated (pname prodKey : String) : Bool :=
  let pl := (stripStr (lowerStr pname)).data
  let kl := (stripStr (lowerStr prodKey)).data
  (decide (10 ≤ pl.length) && decide (10 ≤ kl.length) && (subStr pl kl || subStr kl pl))
    || decide (80 ≤ fuzzRatio pl kl)

/-! ### Ledger data model -/

/-- One stock batch, as stored in `batch_inventory` entries
(`hul_processor_interactive.py:328-332`).  `batch_id` is already cleaned
(`str(x).split(".")[0]`, line 207), `available_stock = none` models `np.inf`. -/
structure Batch where
  batch_id : String
  product_id : String
  available_stock : Option ℚ
deriving DecidableEq

/-- One row of the reference "Product Details" sheet.  `available_stock = none`
models a NaN/missing cell. -/
structure CatalogRow where
  product_name : String
  product_id : String
  batch_id : String
  available_stock : Option ℚ
deriving DecidableEq

/-- The `batch_inventory` dict: product name → list of batches, keys in insertion order. -/
abbrev Inventory := List (String × List Batch)

/-- Dict lookup `batch_inventory[pname]` / membership `pname in batch_inventory`. -/
def invLookup : Inventory → String → Option (List Batch)
  | [], _ => none
  | (q, bs) :: rest, p => if q = p then some bs else invLookup rest p

/-- In-place replacement of one product's batch list (the Python code mutates
the shared batch dicts; we rebuild the entry). -/
def invUpdate : Inventory → String → List Batch → Inventory
  | [], _, _ => []
  | (q, bs) :: rest, p, nbs =>
    if q = p then (q, nbs) :: rest else (q, bs) :: invUpdate rest p nbs

/-- Dict keys `batch_inventory.keys()` in insertion order. -/
def invKeys (inv : Inventory) : List String := inv.map Prod.fst

/-- The batch dict built from one catalog row
(`hul_processor_interactive.py:328-332`): a NaN `available_stock` is stored as
`np.inf` (here: input `none` is stored as `none` = `∞`). -/
def mkLedgerBatch (r : CatalogRow) : Batch :=
  { batch_id := r.batch_id, product_id := r.product_id,
    available_stock := r.available_stock }

/-- Dict append `batch_inventory.setdefault(pname, []).append(batch)`. -/
def invAppend : Inventory → String → Batch → Inventory
  | [], p, b => [(p, [b])]
  | (q, bs) :: rest, p, b =>
    if q = p then (q, bs ++ [b]) :: rest else (q, bs) :: invAppend rest p b

/-- First pass of the ledger build (`hul_processor_interactive.py:324-332`):
group catalog rows by stripped product name, in file order. -/
def buildRaw (crows : List CatalogRow) : Inventory :=
  crows.foldl (fun inv r => invAppend inv (stripStr r.product_name) (mkLedgerBatch r)) []

/-- Descending-stock order on batches: `sorted(batches, key=lambda x: -x["available_stock"])`
(stable). `batchGe a b` holds when `a`'s stock is ≥ `b`'s. -/
def batchGe (a b : Batch) : Prop := sLeO b.available_stock a.available_stock = true

instance : DecidableRel batchGe := fun a b => by unfold batchGe; infer_instance

/-- Second pass of the ledger build (`hul_processor_interactive.py:348-349`):
sort each product's batch list by descending available stock (stable). -/
def buildInventory (crows : List CatalogRow) : Inventory :=
  (buildRaw crows).map (fun e => (e.1, List.insertionSort batchGe e.2))

/-! ### Decision cache and order lines -/

/-- The `processing_cache` dict of answered questions: the three sub-dicts are
`'partial_matches'`, `'variants'` and `'related'` in the source (renamed here
to satisfy identifier restrictions). -/
structure Cache where
  pmAnswers : List (String × Bool)
  varAnswers : List (String × Bool)
  relAnswers : List (String × Bool)
deriving DecidableEq

/-- Dict lookup in a decision sub-cache. -/
def alookup : List (String × Bool) → String → Option Bool
  | [], _ => none
  | (k, v) :: rest, key => if k = key then some v else alookup rest key

/-- The `some true` test: the code appends a candidate product only when the cache
holds the key with value True (`hul_processor_interactive.py:444-446,481-483`). -/
def isYes : Option Bool → Bool
  | some true => true
  | _ => false

/-- One row of `sale_order_df` as it enters the batch-allocation loop
(`hul_processor_interactive.py:358`): parsed input fields plus the product
matching results computed by the matching loop (lines 258-295). `order_date`
is the `%d/%m/%Y`-formatted string (line 163). -/
structure OrderLine where
  order_id : String
  dms_invoice : String
  order_date : String
  product_name : String
  merchant_name : String
  quantity : ℚ
  net_sales : ℚ
  matched_product_name : String
  product_match_score : ℚ
  user_confirmed_match : Bool
deriving DecidableEq

/-- One output row of the allocation loop (an element of `allocated_rows`),
extended with the merchant-matching and combined-error columns added later
(lines 597-610). Brand-specific pass-through columns (`low_price_reason`,
`buyer_branch_id`, `warehouse_name`, `due_date`, `Total Tax %`) carry no
decision content and are omitted. -/
structure Row where
  order_id : String
  order_date : String
  product_name : String
  merchant_name : String
  quantity : ℚ
  selling_price : ℚ
  batch_id : String
  product_id : String
  product_error : String
  product_match_score : ℚ
  user_confirmed_match : Bool
  merchant_match_score : ℚ
  merchant_error : String
  error_message : String
deriving DecidableEq

/-- The `user_confirmed` flag as computed by the product-matching loop
(`hul_processor_interactive.py:264-278`): a partial match (nonempty match,
70 ≤ score < 100) is confirmed only if the cache holds its key — a missing key
defaults to False (reject); score ≥ 100 is auto-confirmed. -/
def matchConfirm (cache : Cache) (prod mtch : String) (score : ℚ) : Bool :=
  if mtch ≠ "" ∧ 70 ≤ score ∧ score < 100 then
    (alookup cache.pmAnswers (prod ++ "|" ++ mtch)).getD false
  else if 100 ≤ score then true
  else false

/-! ### Variant / related product selection -/

/-- The `else` arm of the variant lookup (`hul_processor_interactive.py:426-429`):
scan `product_variants.items()` for a group containing `pname` as a variant. -/
def findVariantGroup : List (String × List String) → String → List String
  | [], _ => []
  | (main, vars) :: rest, pname =>
    if pname ∈ vars then main :: vars.filter (fun v => v ≠ pname)
    else findVariantGroup rest pname

/-- Dict lookup in `product_variants`. -/
def pvLookup : List (String × List String) → String → Option (List String)
  | [], _ => none
  | (q, vs) :: rest, p => if q = p then some vs else pvLookup rest p

/-- Source `variants_to_check` (`hul_processor_interactive.py:422-429`): the variants
registered under `pname`, or — if `pname` is itself someone's variant — the
main product plus the sibling variants. -/
def variantsToCheck (pv : List (String × List String)) (pname : String) : List String :=
  match pvLookup pv pname with
  | some vs => vs
  | none => findVariantGroup pv pname

/-- Python `sum(b["available_stock"] for b in bs)`. -/
def stockSum (bs : List Batch) : Option ℚ :=
  bs.foldl (fun acc b => sAddO acc b.available_stock) (some 0)

/-- Total stock of a product; every call site has already checked membership,
so the `none` arm is unreachable there (modelled as 0). -/
def totalOf (inv : Inventory) (p : String) : Option ℚ :=
  match invLookup inv p with
  | some bs => stockSum bs
  | none => some 0

/-- Source `variants_with_stock` filtered through the decision cache
(`hul_processor_interactive.py:431-449`): keep variants present in the
inventory with positive stock, then keep those whose cache key maps to True
(a missing key means reject — the code writes False into the cache and does
not append). -/
def acceptedVariants (inv : Inventory) (cache : Cache) (pname : String)
    (vtc : List String) : List String :=
  (vtc.filter (fun v =>
    match invLookup inv v with
    | some bs => sPos (stockSum bs)
    | none => false)).filter
      (fun v => isYes (alookup cache.varAnswers (pname ++ "|" ++ v)))

/-- Source `related_products` (`hul_processor_interactive.py:456-474`): scan the
inventory keys, skip products already selected, apply the textual heuristic,
and keep those with positive stock. -/
def relatedCands (inv : Inventory) (base : List String) (pname : String) : List String :=
  (invKeys inv).filter (fun k =>
    !(base.contains k) && isRelated pname k &&
      (match invLookup inv k with
       | some bs => sPos (stockSum bs)
       | none => false))

/-- Source `products_to_use` as built by STEP 2 and STEP 3 of the allocation loop
(`hul_processor_interactive.py:417-486`): start with the matched product;
if its own stock is short, add cache-approved variants; if the combined stock
is still short, add cache-approved related products.  A cache miss always
rejects the candidate. -/
def selectProducts (inv : Inventory) (pv : List (String × List String))
    (cache : Cache) (pname : String) (qty : ℚ) : List String :=
  let withVars :=
    if sLtQ (totalOf inv pname) qty then
      pname :: acceptedVariants inv cache pname (variantsToCheck pv pname)
    else [pname]
  let total := withVars.foldl (fun acc p => sAddO acc (totalOf inv p)) (some 0)
  if sLtQ total qty then
    withVars ++ (relatedCands inv withVars pname).filter
      (fun k => isYes (alookup cache.relAnswers (pname ++ "|" ++ k)))
  else withVars

/-! ### Pooling, draining and write-back -/

/-- A pooled batch tagged with its product and its position in that product's
batch list; the tag stands in for Python's object identity (the pooled dicts
are the very dicts stored in `batch_inventory`, so draining them mutates the
ledger in place). -/
structure TBatch where
  prod : String
  idx : Nat
  b : Batch
deriving DecidableEq

/-- Tag a product's batch list with positions `i, i+1, …`. -/
def withIdx (p : String) : Nat → List Batch → List TBatch
  | _, [] => []
  | i, b :: bs => ⟨p, i, b⟩ :: withIdx p (i + 1) bs

/-- Source `all_batches` (`hul_processor_interactive.py:493-497`): every batch of
every selected product, in selection order. -/
def poolOf (inv : Inventory) : List String → List TBatch
  | [] => []
  | p :: ps =>
    (match invLookup inv p with
     | some bs => withIdx p 0 bs
     | none => []) ++ poolOf inv ps

/-- Descending-stock order on pooled batches (the stable
`sorted(all_batches, key=lambda x: -x["available_stock"])` of line 500). -/
def tbGe (a b : TBatch) : Prop := sLeO b.b.available_stock a.b.available_stock = true

instance : DecidableRel tbGe := fun a b => by unfold tbGe; infer_instance

/-- The greedy drain loop (`hul_processor_interactive.py:503-511`): walk the
sorted pool; while quantity remains, take `min(stock, remaining)` from each
positive-stock batch.  Returns the updated pool (same order), the
`batch_allocations` list of (batch, qty_taken), and the final `remaining_qty`. -/
def drain : List TBatch → ℚ → List TBatch × List (TBatch × ℚ) × ℚ
  | [], r => ([], [], r)
  | tb :: rest, r =>
    if r ≤ 0 then (tb :: rest, [], r)
    else if sPos tb.b.available_stock then
      let t := sMinQ tb.b.available_stock r
      let out := drain rest (r - t)
      ({ tb with b := { tb.b with available_stock := sSub tb.b.available_stock t } } :: out.1,
       (tb, t) :: out.2.1, out.2.2)
    else
      let out := drain rest r
      (tb :: out.1, out.2.1, out.2.2)

/-- Find the drained batch tagged `(p, i)`, if that slot was pooled. -/
def batchAt (pool : List TBatch) (p : String) (i : Nat) : Option Batch :=
  match pool with
  | [] => none
  | tb :: rest => if tb.prod = p ∧ tb.idx = i then some tb.b else batchAt rest p i

/-- Replace each batch of one product by its drained version (if pooled). -/
def applyPool (pool : List TBatch) (p : String) : Nat → List Batch → List Batch
  | _, [] => []
  | i, b :: bs =>
    (match batchAt pool p i with
     | some nb => nb
     | none => b) :: applyPool pool p (i + 1) bs

/-- Propagate the drained stocks back into the ledger (Python mutates the
shared dicts in place; per-product list order is unchanged). -/
def writeBack (inv : Inventory) (pool : List TBatch) : Inventory :=
  inv.map (fun e => (e.1, applyPool pool e.1 0 e.2))

/-! ### The per-line allocation step -/

/-- An output row carrying `base_row` plus the allocation-specific columns;
merchant columns are placeholders until `attachMerchant`. -/
def mkRow (line : OrderLine) (qty price : ℚ) (bid pid err : String) : Row :=
  { order_id := line.order_id, order_date := line.order_date,
    product_name := line.product_name, merchant_name := line.merchant_name,
    quantity := qty, selling_price := price, batch_id := bid, product_id := pid,
    product_error := err, product_match_score := line.product_match_score,
    user_confirmed_match := line.user_confirmed_match,
    merchant_match_score := 0, merchant_error := "", error_message := "" }

/-- Error text of `hul_processor_interactive.py:381` (the source wraps the
percentage in `(...%)`; `int()` truncation of a nonnegative score is `⌊·⌋`). -/
def lowScoreMsg (score : ℚ) : String :=
  "Product match score too low (" ++ toString ⌊score⌋ ++
    "%) - may be similar but different product"

/-- Error text of `hul_processor_interactive.py:531` (the source quotes the
product name; the quotes are dropped here). -/
def insuffMsg (qty fulfilled : ℚ) (pname : String) : String :=
  "Insufficient stock: need " ++ toString ⌊qty⌋ ++ ", only " ++ toString ⌊fulfilled⌋ ++
    " available across all batches (matched to: " ++ pname ++ ")"

/-- One iteration of the batch-allocation loop
(`hul_processor_interactive.py:358-548`) on the current ledger: returns the
updated ledger and the rows appended to `allocated_rows` for this line.
Branches, in source order: unmatched product; matched name absent from the
ledger; return (negative quantity) crediting the first stored batch; positive
quantity via pooling, sorting, greedy drain (consumption is kept even when the
drain falls short — no rollback); zero quantity.  The `bs = []` sub-case of the
return branch cannot arise from `buildInventory` (every key owns ≥ 1 batch);
the source would raise there, and we fall through to the not-found row. -/
def allocStep (pv : List (String × List String)) (cache : Cache) (inv : Inventory)
    (line : OrderLine) : Inventory × List Row :=
  let pname := line.matched_product_name
  let qty := line.quantity
  let sp := if qty ≠ 0 then line.net_sales / qty else 0
  if pname = "" then
    (inv, [mkRow line qty sp "" ""
      (if 0 < line.product_match_score then lowScoreMsg line.product_match_score
       else "Product not found in reference")])
  else
    match invLookup inv pname with
    | none => (inv, [mkRow line qty sp "" "" "Product not found in reference"])
    | some bs =>
      if qty < 0 then
        match bs with
        | [] => (inv, [mkRow line qty sp "" "" "Product not found in reference"])
        | b :: rest =>
          (invUpdate inv pname
            ({ b with available_stock := sAdd b.available_stock (abs qty) } :: rest),
           [mkRow line qty sp b.batch_id b.product_id ""])
      else if 0 < qty then
        let ps := selectProducts inv pv cache pname qty
        let pool := List.insertionSort tbGe (poolOf inv ps)
        let dres := drain pool qty
        let inv2 := writeBack inv dres.1
        if dres.2.2 ≤ 0 then
          (inv2, dres.2.1.map (fun a =>
            mkRow line a.2
              (if a.2 ≠ 0 then (if qty ≠ 0 then line.net_sales * a.2 / qty else 0) / a.2 else 0)
              a.1.b.batch_id a.1.b.product_id ""))
        else
          (inv2, [mkRow line qty sp "" "" (insuffMsg qty (qty - dres.2.2) pname)])
      else
        (inv, [mkRow line qty 0 "" "" "Zero quantity"])

/-- The whole allocation loop: thread the ledger through the lines, appending
each line's rows to `allocated_rows`. -/
def runAlloc (pv : List (String × List String)) (cache : Cache) :
    Inventory → List OrderLine → Inventory × List Row
  | inv, [] => (inv, [])
  | inv, line :: rest =>
    let step := allocStep pv cache inv line
    let tail := runAlloc pv cache step.1 rest
    (tail.1, step.2 ++ tail.2)

/-- Key order of `sale_order_df.sort_values(by="order_date")`
(`hul_processor_interactive.py:352`): the column holds `%d/%m/%Y` strings, so
pandas compares them lexicographically. -/
def dateLe (a b : OrderLine) : Prop := strLe a.order_date b.order_date = true

instance : DecidableRel dateLe := fun a b => by unfold dateLe; infer_instance

/-- The pre-allocation sort.  pandas' default quicksort is determinized as a
stable sort on the same key; `collect_questions.py:243` applies the identical
sort, so both phases see the same order. -/
def sortLines (ls : List OrderLine) : List OrderLine := List.insertionSort dateLe ls

/-! ### Merchant matching, error combination, categorization -/

/-- Source `exact_match_name` (`hul_processor_interactive.py:38-46`): case-insensitive
whitespace-normalized equality; first hit wins. -/
def exactMatchName (name : String) (choices : List String) : String × ℚ :=
  let ni := (normalizeName name).toLower
  if ni = "" then ("", 0)
  else
    match choices.find? (fun c => (normalizeName c).toLower = ni) with
    | some c => (c, 100)
    | none => ("", 0)

/-- Merchant matching for one row (`hul_processor_interactive.py:573-604`):
exact match against shop names, then merchant names; no hit gives score 0 and
the "Merchant not matched" error.  Mobile/state columns are pass-through and
omitted. -/
def attachMerchant (shops merchants : List String) (r : Row) : Row :=
  if (exactMatchName r.merchant_name shops).2 = 100 then
    { r with merchant_match_score := 100, merchant_error := "" }
  else if (exactMatchName r.merchant_name merchants).2 = 100 then
    { r with merchant_match_score := 100, merchant_error := "" }
  else
    { r with merchant_match_score := 0, merchant_error := "Merchant not matched" }

/-- Python `", ".join(filter(None, [product_error, merchant_error]))`
(`hul_processor_interactive.py:607-610`). -/
def joinNonempty (a b : String) : String :=
  if a = "" then b else if b = "" then a else a ++ ", " ++ b

/-- Python `"not found" in str(product_error).lower()`. -/
def containsNotFound (s : String) : Bool := subStr "not found".data (lowerStr s).data

/-- Source `has_critical_error` of `get_match_category` (line 657). -/
def hasCriticalError (r : Row) : Bool :=
  (decide (r.product_error ≠ "") && containsNotFound r.product_error)
    || decide (r.merchant_error ≠ "")

/-- Source `is_incomplete` of `get_match_category` (lines 660-662); the scores are
genuine values here, so the `pd.isna` arms are vacuous. -/
def isIncomplete (r : Row) : Bool :=
  decide (r.product_id = "") || decide (r.batch_id = "")

/-- Source `get_match_category` (`hul_processor_interactive.py:653-677`). -/
def getMatchCategory (r : Row) : String :=
  if decide (r.product_match_score = 100) && decide (r.merchant_match_score = 100)
      && !hasCriticalError r && !isIncomplete r then "valid"
  else if r.user_confirmed_match && decide (70 ≤ r.product_match_score)
      && decide (r.product_match_score < 100) && decide (r.merchant_match_score = 100)
      && !hasCriticalError r && !isIncomplete r then "valid"
  else if decide (70 ≤ r.product_match_score) && decide (r.product_match_score < 100)
      && decide (r.merchant_match_score = 100) && !hasCriticalError r
      && !isIncomplete r && !r.user_confirmed_match then "partial"
  else "error"

/-- A row contributes its order to the error sheet
(`hul_processor_interactive.py:683-686`): stripped error message nonempty, or
category "error". -/
def errFlag (r : Row) : Bool :=
  decide (stripStr r.error_message ≠ "") || decide (getMatchCategory r = "error")

/-- The whole-order categorization (`hul_processor_interactive.py:681-704`):
collect the order ids of offending rows, then move entire orders; result is
(valid rows, partial rows, error rows).  (pandas `.unique()` dedups the id
lists; membership tests are unaffected, so the dedup is dropped.) -/
def categorize (rows : List Row) : List Row × List Row × List Row :=
  let errIds := (rows.filter errFlag).map (fun r => r.order_id)
  let partialIds := (rows.filter (fun r => decide (getMatchCategory r = "partial"))).map
    (fun r => r.order_id)
  let errorRows := rows.filter (fun r => errIds.contains r.order_id)
  let rest := rows.filter (fun r => !(errIds.contains r.order_id))
  let partialRows := rest.filter (fun r => partialIds.contains r.order_id)
  let validRows := rest.filter (fun r => !(partialIds.contains r.order_id))
  (validRows, partialRows, errorRows)

/-! ### Valid-sheet pagination (`sheet_splitter.py`) -/

def MAX_ORDERS_PER_SHEET : Nat := 200

/-- First-occurrence deduplication with an accumulator of already-seen ids. -/
def dedupAux (seen : List String) : List String → List String
  | [] => []
  | x :: xs => if seen.contains x then dedupAux seen xs else x :: dedupAux (x :: seen) xs

/-- Pandas `valid_df['order_id'].unique()`: distinct order ids in first-occurrence order. -/
def uniqueOrders (rows : List Row) : List String :=
  dedupAux [] (rows.map (fun r => r.order_id))

/-- The packing loop of `split_orders_into_sheets` (`sheet_splitter.py:33-44`):
push the current group and start a new one whenever adding an order would
exceed the page size. -/
def packLoop : List String → List (List String) → List String → Nat →
    List (List String) × List String
  | [], gs, cur, _ => (gs, cur)
  | x :: rest, gs, cur, cnt =>
    if cnt + 1 > MAX_ORDERS_PER_SHEET ∧ cur ≠ [] then
      packLoop rest (gs ++ [cur]) [x] 1
    else
      packLoop rest gs (cur ++ [x]) (cnt + 1)

/-- Source `order_groups` including the trailing group (`sheet_splitter.py:46-48`). -/
def packGroups (ids : List String) : List (List String) :=
  let res := packLoop ids [] [] 0
  if res.2 ≠ [] then res.1 ++ [res.2] else res.1

/-- Source `split_orders_into_sheets` (`sheet_splitter.py:9-68`) restricted to the
sheet contents: an empty frame yields no sheets; ≤ 200 distinct orders yield a
single sheet; otherwise one sheet per packed group, each holding exactly the
rows whose order id lies in the group. -/
def splitSheets (rows : List Row) : List (List Row) :=
  if rows = [] then []
  else if MAX_ORDERS_PER_SHEET < (uniqueOrders rows).length then
    (packGroups (uniqueOrders rows)).map
      (fun g => rows.filter (fun r => g.contains r.order_id))
  else [rows]

/-! ### The Question Collector's stock simulation (`collect_questions.py:333-342`) -/

/-- The collector's simplified consumption: drain the matched product's own
batches in stored order (no pooling, no re-sort), taking
`min(stock, remaining)` from each positive-stock batch. -/
def simConsume : List Batch → ℚ → List Batch × ℚ
  | [], r => ([], r)
  | b :: bs, r =>
    if r ≤ 0 then (b :: bs, r)
    else if sPos b.available_stock then
      let t := sMinQ b.available_stock r
      let out := simConsume bs (r - t)
      ({ b with available_stock := sSub b.available_stock t } :: out.1, out.2)
    else
      let out := simConsume bs r
      (b :: out.1, out.2)

/-! ### The post-allocation pipeline -/

/-- Everything after the allocation loop
(`hul_processor_interactive.py:560-704`): merchant matching, error-message
combination, separation of the negative-quantity rows into the Sales Return
bucket (lines 612-614; the return sheet itself is a field remap of these rows,
lines 634-647), and whole-order categorization of the remaining rows.
Result: ((valid, partial, error), return rows, final ledger). -/
def pipeline (pv : List (String × List String)) (cache : Cache)
    (shops merchants : List String) (inv : Inventory) (lines : List OrderLine) :
    (List Row × List Row × List Row) × List Row × Inventory :=
  let res := runAlloc pv cache inv (sortLines lines)
  let rows := (res.2.map (attachMerchant shops merchants)).map
    (fun r => { r with error_message := joinNonempty r.product_error r.merchant_error })
  let negRows := rows.filter (fun r => decide (r.quantity < 0))
  let posRows := rows.filter (fun r => !(decide (r.quantity < 0)))
  (categorize posRows, negRows, res.1)

/-! ### Concrete fixtures used by witnesses, counterexamples and scenarios -/

/-- Empty variant table. -/
def noVariants : List (String × List String) := []

/-- Empty decision cache (every question unanswered). -/
def emptyCache : Cache := ⟨[], [], []⟩

/-- A minimal order line for concrete runs. -/
def mkLine (id date : String) (q : ℚ) (m : String) (sc : ℚ) : OrderLine :=
  { order_id := id, dms_invoice := id, order_date := date,
    product_name := "Prod", merchant_name := "M", quantity := q, net_sales := q,
    matched_product_name := m, product_match_score := sc,
    user_confirmed_match := decide (sc = 100) }

/-- Ledger with one product holding two batches of 10 and 5 units. -/
def cexInv : Inventory := [("Prod", [⟨"B1", "PID", some 10⟩, ⟨"B2", "PID", some 5⟩])]

/-- A sale of 8 units of `Prod` (drains batch B1 from 10 down to 2). -/
def cexSale : OrderLine := mkLine "O1" "01/01/2024" 8 "Prod" 100

/-- A later return of 3 units of `Prod`. -/
def cexReturn : OrderLine := mkLine "O2" "02/01/2024" (-3) "Prod" 100

/-- A line dated 10 January 2024. -/
def cexLineJan : OrderLine := mkLine "A" "10/01/2024" 1 "Prod" 100

/-- A line dated 9 February 2024. -/
def cexLineFeb : OrderLine := mkLine "B" "09/02/2024" 1 "Prod" 100

/-- Calendar value of a `%d/%m/%Y` date string: `y * 10000 + m * 100 + d`
(larger means later).  Digits are parsed directly from the characters. -/
def digitVal (c : Char) : Nat :=
  if c = '0' then 0 else if c = '1' then 1 else if c = '2' then 2
  else if c = '3' then 3 else if c = '4' then 4 else if c = '5' then 5
  else if c = '6' then 6 else if c = '7' then 7 else if c = '8' then 8
  else if c = '9' then 9 else 0

/-- Value of a digit run. -/
def digitsVal (cs : List Char) : Nat := cs.foldl (fun n c => n * 10 + digitVal c) 0

/-- Calendar value of `dd/mm/yyyy`. -/
def dateValue (s : String) : Nat :=
  match s.data with
  | [d1, d2, _, m1, m2, _, y1, y2, y3, y4] =>
    digitsVal [y1, y2, y3, y4] * 10000 + digitsVal [m1, m2] * 100 + digitsVal [d1, d2]
  | _ => 0

/-- A return line whose product went unmatched (score 0, empty match). -/
def cexUnmatchedReturn : OrderLine := mkLine "O6" "01/01/2024" (-2) "" 0

/-- Ledger for the unmatched-return run. -/
def cexInvP : Inventory := [("P", [⟨"B", "X", some 7⟩])]

/-- A pagination row: one row for the given order id, fully valid. -/
def mkSimpleRow (id : String) : Row :=
  { order_id := id, order_date := "", product_name := "", merchant_name := "",
    quantity := 1, selling_price := 0, batch_id := "b", product_id := "p",
    product_error := "", product_match_score := 100, user_confirmed_match := true,
    merchant_match_score := 100, merchant_error := "", error_message := "" }

/-- 201 valid rows with 201 distinct order ids, one row each. -/
def rows201 : List Row := (List.range 201).map (fun n => mkSimpleRow (toString n))

/-! ### Drain lemmas -/

theorem sMinQ_le (s : Option ℚ) (r : ℚ) : sMinQ s r ≤ r := by
  cases s with
  | none => simp [sMinQ]
  | some x => simp [sMinQ]

theorem drain_stop (pool : List TBatch) (r : ℚ) (h : r ≤ 0) :
    drain pool r = (pool, [], r) := by
  cases pool with
  | nil => simp [drain]
  | cons tb rest => simp [drain, h]

/-- The drain loop never overshoots: the remainder stays nonnegative and the
taken quantities together with the remainder account exactly for the request. -/
theorem drain_spec (pool : List TBatch) (r : ℚ) (h : 0 ≤ r) :
    0 ≤ (drain pool r).2.2 ∧
      ((drain pool r).2.1.map Prod.snd).sum + (drain pool r).2.2 = r := by
  induction pool generalizing r with
  | nil => simpa [drain] using h
  | cons tb rest ih =>
    by_cases hr : r ≤ 0
    · simpa [drain, hr] using h
    · by_cases hp : sPos tb.b.available_stock = true
      · have ht : sMinQ tb.b.available_stock r ≤ r := sMinQ_le _ _
        have h0 : 0 ≤ r - sMinQ tb.b.available_stock r := by linarith
        have hrec := ih (r - sMinQ tb.b.available_stock r) h0
        refine ⟨by simpa [drain, hr, hp] using hrec.1, ?_⟩
        simp only [drain, if_neg hr, hp, if_pos, List.map_cons, List.sum_cons]
        linarith [hrec.2]
      · have hrec := ih r h
        refine ⟨by simpa [drain, hr, hp] using hrec.1, ?_⟩
        simpa [drain, hr, hp] using hrec.2

/-! ### Error-message nonemptiness -/

theorem lowScoreMsg_ne (s : ℚ) : lowScoreMsg s ≠ "" := by
  intro h
  have hl := congrArg String.length h
  simp only [lowScoreMsg, String.length_append] at hl
  have h1 : ("Product match score too low (" : String).length = 29 := rfl
  have h2 : ("" : String).length = 0 := rfl
  rw [h1, h2] at hl
  omega

theorem insuffMsg_ne (q f : ℚ) (p : String) : insuffMsg q f p ≠ "" := by
  intro h
  have hl := congrArg String.length h
  simp only [insuffMsg, String.length_append] at hl
  have h1 : ("Insufficient stock: need " : String).length = 25 := rfl
  have h2 : ("" : String).length = 0 := rfl
  rw [h1, h2] at hl
  omega

/-- C1: every positive-quantity order line either succeeds — all emitted rows
are error-free and their quantities sum exactly to the requested quantity — or
is rejected as one single error row carrying no batch at all (no partial
silent fulfillment). -/
theorem c1_no_partial_fulfillment (pv : List (String × List String)) (cache : Cache)
    (inv : Inventory) (line : OrderLine) (h : 0 < line.quantity) :
    (((allocStep pv cache inv line).2.map (fun r => r.quantity)).sum = line.quantity
      ∧ (∀ r ∈ (allocStep pv cache inv line).2, r.product_error = "")
      ∧ (allocStep pv cache inv line).2 ≠ [])
    ∨ (∃ e, (allocStep pv cache inv line).2 = [e] ∧ e.product_error ≠ ""
        ∧ e.batch_id = "" ∧ e.product_id = "") := by
  have hnotneg : ¬ line.quantity < 0 := by linarith
  by_cases hp : line.matched_product_name = ""
  · right
    simp only [allocStep, if_pos hp]
    refine ⟨_, rfl, ?_, rfl, rfl⟩
    show (if 0 < line.product_match_score then lowScoreMsg line.product_match_score
          else "Product not found in reference") ≠ ""
    split
    · exact lowScoreMsg_ne _
    · decide
  · cases hl : invLookup inv line.matched_product_name with
    | none =>
      right
      simp only [allocStep, if_neg hp, hl]
      refine ⟨_, rfl, ?_, rfl, rfl⟩
      show ("Product not found in reference" : String) ≠ ""
      decide
    | some bs =>
      simp only [allocStep, if_neg hp, hl, if_neg hnotneg, if_pos h]
      by_cases hrem :
          (drain (List.insertionSort tbGe
            (poolOf inv (selectProducts inv pv cache line.matched_product_name line.quantity)))
            line.quantity).2.2 ≤ 0
      · left
        have hspec := drain_spec
          (List.insertionSort tbGe
            (poolOf inv (selectProducts inv pv cache line.matched_product_name line.quantity)))
          line.quantity (le_of_lt h)
        have hzero :
            (drain (List.insertionSort tbGe
              (poolOf inv (selectProducts inv pv cache line.matched_product_name line.quantity)))
              line.quantity).2.2 = 0 := le_antisymm hrem hspec.1
        refine ⟨?_, ?_, ?_⟩
        · simp only [if_pos hrem, List.map_map]
          have hcomp :
              ((fun r : Row => r.quantity) ∘
                (fun a : TBatch × ℚ => mkRow line a.2
                  (if a.2 ≠ 0 then
                    (if line.quantity ≠ 0 then line.net_sales * a.2 / line.quantity else 0) / a.2
                   else 0)
                  a.1.b.batch_id a.1.b.product_id "")) = Prod.snd := rfl
          rw [hcomp]
          have := hspec.2
          rw [hzero] at this
          linarith
        · intro r hr
          simp only [if_pos hrem] at hr
          obtain ⟨a, _, rfl⟩ := List.mem_map.mp hr
          rfl
        · simp only [if_pos hrem, ne_eq, List.map_eq_nil_iff]
          intro hnil
          have := hspec.2
          rw [hzero, hnil] at this
          simp at this
          linarith
      · right
        simp only [if_neg hrem]
        exact ⟨_, rfl, insuffMsg_ne _ _ _, rfl, rfl⟩

/-- A sale of 12 units of `Prod` (covered by batches of 10 and 5). -/
def cexBigSale : OrderLine := mkLine "O1" "01/01/2024" 12 "Prod" 100

theorem c1_witness :
    0 < cexBigSale.quantity ∧
      ((((allocStep noVariants emptyCache cexInv cexBigSale).2.map
            (fun r => r.quantity)).sum = cexBigSale.quantity
        ∧ (∀ r ∈ (allocStep noVariants emptyCache cexInv cexBigSale).2, r.product_error = "")
        ∧ (allocStep noVariants emptyCache cexInv cexBigSale).2 ≠ [])
       ∨ (∃ e, (allocStep noVariants emptyCache cexInv cexBigSale).2 = [e]
           ∧ e.product_error ≠ "" ∧ e.batch_id = "" ∧ e.product_id = "")) :=
  ⟨by decide, c1_no_partial_fulfillment noVariants emptyCache cexInv cexBigSale (by decide)⟩

/-! ### C5: score-band boundaries of the categorizer -/

/-- C5: for a row with merchant score 100, complete product/batch ids and no
error text: product score exactly 70 without user confirmation is "partial",
69 is "error", and exactly 100 is "valid". -/
theorem c5_score_bands (r : Row) (hm : r.merchant_match_score = 100)
    (hpid : r.product_id ≠ "") (hbid : r.batch_id ≠ "")
    (hpe : r.product_error = "") (hme : r.merchant_error = "") :
    (r.product_match_score = 70 → r.user_confirmed_match = false →
       getMatchCategory r = "partial")
    ∧ (r.product_match_score = 69 → getMatchCategory r = "error")
    ∧ (r.product_match_score = 100 → getMatchCategory r = "valid") := by
  have hcrit : hasCriticalError r = false := by
    simp [hasCriticalError, hpe, hme]
  have hinc : isIncomplete r = false := by
    simp [isIncomplete, hpid, hbid]
  refine ⟨?_, ?_, ?_⟩
  · intro h70 huc
    norm_num [getMatchCategory, hcrit, hinc, hm, h70, huc]
  · intro h69
    norm_num [getMatchCategory, hcrit, hinc, hm, h69]
  · intro h100
    norm_num [getMatchCategory, hcrit, hinc, hm, h100]

/-- A concrete fully-complete row with merchant score 100. -/
def cexRow : Row := mkSimpleRow "X"

theorem c5_witness :
    (cexRow.merchant_match_score = 100 ∧ cexRow.product_id ≠ "" ∧ cexRow.batch_id ≠ ""
      ∧ cexRow.product_error = "" ∧ cexRow.merchant_error = "")
    ∧ getMatchCategory { cexRow with product_match_score := 70, user_confirmed_match := false }
        = "partial"
    ∧ getMatchCategory { cexRow with product_match_score := 69, user_confirmed_match := false }
        = "error"
    ∧ getMatchCategory cexRow = "valid" := by
  refine ⟨by refine ⟨rfl, ?_, ?_, rfl, rfl⟩ <;> decide, ?_, ?_, ?_⟩
  · exact (c5_score_bands _ rfl (by decide) (by decide) rfl rfl).1 rfl rfl
  · exact (c5_score_bands _ rfl (by decide) (by decide) rfl rfl).2.1 rfl
  · exact (c5_score_bands _ rfl (by decide) (by decide) rfl rfl).2.2 rfl

/-! ### C8: a missing decision-cache key always rejects -/

/-- Every product the allocation draws from is either the matched product
itself or was explicitly approved (`some true`) in the variant or related
decision cache. -/
theorem mem_selectProducts (inv : Inventory) (pv : List (String × List String))
    (cache : Cache) (pname : String) (qty : ℚ) (x : String)
    (hx : x ∈ selectProducts inv pv cache pname qty) :
    x = pname ∨ isYes (alookup cache.varAnswers (pname ++ "|" ++ x)) = true
      ∨ isYes (alookup cache.relAnswers (pname ++ "|" ++ x)) = true := by
  unfold selectProducts at hx
  set withVars :=
    (if sLtQ (totalOf inv pname) qty then
      pname :: acceptedVariants inv cache pname (variantsToCheck pv pname)
    else [pname]) with hwv
  have hbase : ∀ y, y ∈ withVars →
      y = pname ∨ isYes (alookup cache.varAnswers (pname ++ "|" ++ y)) = true := by
    intro y hy
    rw [hwv] at hy
    by_cases hc : sLtQ (totalOf inv pname) qty = true
    · rw [if_pos hc] at hy
      rcases List.mem_cons.mp hy with h | h
      · exact Or.inl h
      · right
        unfold acceptedVariants at h
        exact (List.mem_filter.mp h).2
    · rw [if_neg hc] at hy
      exact Or.inl (by simpa using hy)
  by_cases ht : sLtQ (withVars.foldl (fun acc p => sAddO acc (totalOf inv p)) (some 0)) qty = true
  · rw [if_pos ht] at hx
    rcases List.mem_append.mp hx with h | h
    · rcases hbase x h with h' | h'
      · exact Or.inl h'
      · exact Or.inr (Or.inl h')
    · exact Or.inr (Or.inr (List.mem_filter.mp h).2)
  · rw [if_neg ht] at hx
    rcases hbase x hx with h' | h'
    · exact Or.inl h'
    · exact Or.inr (Or.inl h')

/-- C8: a decision key absent from the cache is treated as reject/false — the
partial match stays unconfirmed and the candidate variant / related product is
never drawn from. -/
theorem c8_default_reject (cache : Cache) :
    (∀ prod mtch (score : ℚ), mtch ≠ "" → 70 ≤ score → score < 100 →
       alookup cache.pmAnswers (prod ++ "|" ++ mtch) = none →
       matchConfirm cache prod mtch score = false)
    ∧ (∀ inv pv pname (qty : ℚ) x,
        alookup cache.varAnswers (pname ++ "|" ++ x) = none →
        alookup cache.relAnswers (pname ++ "|" ++ x) = none →
        x ∈ selectProducts inv pv cache pname qty → x = pname) := by
  constructor
  · intro prod mtch score h1 h2 h3 h4
    rw [matchConfirm, if_pos ⟨h1, h2, h3⟩, h4]
    rfl
  · intro inv pv pname qty x hv hr hx
    rcases mem_selectProducts inv pv cache pname qty x hx with h | h | h
    · exact h
    · rw [hv] at h
      exact absurd h (by decide)
    · rw [hr] at h
      exact absurd h (by decide)

theorem c8_witness :
    (alookup emptyCache.pmAnswers ("a" ++ "|" ++ "b") = none
      ∧ matchConfirm emptyCache "a" "b" 85 = false)
    ∧ (alookup emptyCache.varAnswers ("Prod" ++ "|" ++ "Other") = none
      ∧ ∀ x ∈ selectProducts cexInv noVariants emptyCache "Prod" 99, x = "Prod") := by
  refine ⟨⟨rfl, (c8_default_reject emptyCache).1 "a" "b" 85 (by decide) (by decide)
    (by decide) rfl⟩, rfl, ?_⟩
  intro x hx
  exact (c8_default_reject emptyCache).2 cexInv noVariants "Prod" 99 x rfl rfl hx

/-! ### C4: entire orders move together between the three outputs -/

theorem mem_categorize_error (rows : List Row) (r : Row) :
    r ∈ (categorize rows).2.2 ↔
      r ∈ rows ∧
        ((rows.filter errFlag).map (fun t => t.order_id)).contains r.order_id = true := by
  simp [categorize, List.mem_filter]

theorem mem_categorize_partial_bucket (rows : List Row) (r : Row) :
    r ∈ (categorize rows).2.1 ↔
      r ∈ rows ∧
        ((rows.filter errFlag).map (fun t => t.order_id)).contains r.order_id = false ∧
        ((rows.filter (fun t => decide (getMatchCategory t = "partial"))).map
          (fun t => t.order_id)).contains r.order_id = true := by
  simp [categorize, List.mem_filter, and_assoc]
  intro _
  tauto

theorem mem_categorize_valid (rows : List Row) (r : Row) :
    r ∈ (categorize rows).1 ↔
      r ∈ rows ∧
        ((rows.filter errFlag).map (fun t => t.order_id)).contains r.order_id = false ∧
        ((rows.filter (fun t => decide (getMatchCategory t = "partial"))).map
          (fun t => t.order_id)).contains r.order_id = false := by
  simp [categorize, List.mem_filter, and_assoc]
  intro _
  tauto

/-- C4: after categorization the order-id sets of the valid, partial and error
outputs are pairwise disjoint, and any two rows sharing an order id land in
the same output (so a multi-row order with one bad row moves whole). -/
theorem c4_orders_move_together (rows : List Row) :
    ((∀ r ∈ (categorize rows).1, ∀ s ∈ (categorize rows).2.1, r.order_id ≠ s.order_id)
      ∧ (∀ r ∈ (categorize rows).1, ∀ s ∈ (categorize rows).2.2, r.order_id ≠ s.order_id)
      ∧ (∀ r ∈ (categorize rows).2.1, ∀ s ∈ (categorize rows).2.2, r.order_id ≠ s.order_id))
    ∧ (∀ r s, r ∈ rows → s ∈ rows → r.order_id = s.order_id →
        ((r ∈ (categorize rows).1 ↔ s ∈ (categorize rows).1)
          ∧ (r ∈ (categorize rows).2.1 ↔ s ∈ (categorize rows).2.1)
          ∧ (r ∈ (categorize rows).2.2 ↔ s ∈ (categorize rows).2.2))) := by
  refine ⟨⟨?_, ?_, ?_⟩, ?_⟩
  · intro r hr s hs heq
    have h1 := (mem_categorize_valid rows r).mp hr
    have h2 := (mem_categorize_partial_bucket rows s).mp hs
    rw [heq] at h1
    rw [h1.2.2] at h2
    exact Bool.false_ne_true h2.2.2
  · intro r hr s hs heq
    have h1 := (mem_categorize_valid rows r).mp hr
    have h2 := (mem_categorize_error rows s).mp hs
    rw [heq] at h1
    rw [h1.2.1] at h2
    exact Bool.false_ne_true h2.2
  · intro r hr s hs heq
    have h1 := (mem_categorize_partial_bucket rows r).mp hr
    have h2 := (mem_categorize_error rows s).mp hs
    rw [heq] at h1
    rw [h1.2.1] at h2
    exact Bool.false_ne_true h2.2
  · intro r s hr hs heq
    refine ⟨?_, ?_, ?_⟩
    · rw [mem_categorize_valid, mem_categorize_valid, heq]
      simp [hr, hs]
    · rw [mem_categorize_partial_bucket, mem_categorize_partial_bucket, heq]
      simp [hr, hs]
    · rw [mem_categorize_error, mem_categorize_error, heq]
      simp [hr, hs]

/-- Erroring row of the 3-row order `O1` (empty ids and an error message). -/
def cexR1 : Row :=
  { mkSimpleRow "O1" with
    batch_id := ""
    product_id := ""
    product_error := "Product not found in reference"
    error_message := "Product not found in reference" }

/-- Clean row of order `O1` on batch b2. -/
def cexR2 : Row := { mkSimpleRow "O1" with batch_id := "b2" }

/-- Clean row of order `O1` on batch b3. -/
def cexR3 : Row := { mkSimpleRow "O1" with batch_id := "b3" }

/-- A 3-row order where exactly one row errors. -/
def cexRows3 : List Row := [cexR1, cexR2, cexR3]

theorem c4_witness :
    (cexR2 ∈ (categorize cexRows3).2.2 ↔ cexR3 ∈ (categorize cexRows3).2.2)
    ∧ cexR1 ∈ (categorize cexRows3).2.2
    ∧ cexR2 ∈ (categorize cexRows3).2.2
    ∧ cexR3 ∈ (categorize cexRows3).2.2
    ∧ (categorize cexRows3).1 = [] ∧ (categorize cexRows3).2.1 = [] :=
  ⟨((c4_orders_move_together cexRows3).2 cexR2 cexR3 (by decide) (by decide) rfl).2.2,
   by with_unfolding_all decide, by with_unfolding_all decide,
   by with_unfolding_all decide, by with_unfolding_all decide,
   by with_unfolding_all decide⟩

/-! ### C2: where a return credit really lands -/

/-- C2 counterexample: after a sale of 8 drains batch `B1` from 10 down to 2,
a return of 3 for the same product still credits `B1` — the head of the
once-sorted batch list — although `B2` now holds the strictly larger stock
(5 > 2).  So a return does not credit the batch holding the maximum stock
immediately before the credit. -/
theorem c2_counterexample :
    ((allocStep noVariants emptyCache cexInv cexSale).1.map
        (fun e => (e.1, e.2.map (fun b => (b.batch_id, b.available_stock)))))
      = [("Prod", [("B1", some 2), ("B2", some 5)])]
    ∧ ((allocStep noVariants emptyCache
          (allocStep noVariants emptyCache cexInv cexSale).1 cexReturn).2.map
        (fun r => r.batch_id)) = ["B1"]
    ∧ sLt (some 2) (some 5) = true := by
  refine ⟨?_, ?_, ?_⟩ <;> with_unfolding_all decide

/-- C2 (amended): a matched return emits exactly one return row and credits
`abs(qty)` to the *first* batch of the product's stored list — the batch that
held the maximum stock when the ledger was built and sorted, not necessarily
the current maximum. -/
theorem c2_head_credit (pv : List (String × List String)) (cache : Cache) (inv : Inventory)
    (line : OrderLine) (b : Batch) (bs : List Batch)
    (hq : line.quantity < 0) (hm : ¬ line.matched_product_name = "")
    (hl : invLookup inv line.matched_product_name = some (b :: bs)) :
    allocStep pv cache inv line =
      (invUpdate inv line.matched_product_name
        ({ b with available_stock := sAdd b.available_stock (abs line.quantity) } :: bs),
       [mkRow line line.quantity (line.net_sales / line.quantity) b.batch_id b.product_id ""]) := by
  have hne : line.quantity ≠ 0 := ne_of_lt hq
  simp only [allocStep, if_neg hm, hl, if_pos hq, if_pos hne]

theorem c2_witness :
    cexReturn.quantity < 0 ∧ ¬ cexReturn.matched_product_name = "" ∧
      allocStep noVariants emptyCache cexInv cexReturn =
        (invUpdate cexInv cexReturn.matched_product_name
          ({ (⟨"B1", "PID", some 10⟩ : Batch) with
              available_stock := sAdd (some 10) (abs cexReturn.quantity) } ::
            [⟨"B2", "PID", some 5⟩]),
         [mkRow cexReturn cexReturn.quantity (cexReturn.net_sales / cexReturn.quantity)
            "B1" "PID" ""]) :=
  ⟨by decide, by decide,
   c2_head_credit noVariants emptyCache cexInv cexReturn _ _ (by decide) (by decide) rfl⟩

/-! ### Sorting lemmas for C3 and C10 -/

theorem charListLe_refl (a : List Char) : charListLe a a = true := by
  induction a with
  | nil => rfl
  | cons x xs ih => simp [charListLe, ih]

theorem charListLe_total (a b : List Char) : charListLe a b = true ∨ charListLe b a = true := by
  induction a generalizing b with
  | nil => exact Or.inl rfl
  | cons x xs ih =>
    cases b with
    | nil => exact Or.inr rfl
    | cons y ys =>
      by_cases hxy : x = y
      · subst hxy
        rcases ih ys with h | h
        · exact Or.inl (by simpa [charListLe] using h)
        · exact Or.inr (by simpa [charListLe] using h)
      · rcases lt_or_gt_of_ne hxy with h | h
        · exact Or.inl (by simp [charListLe, hxy, h])
        · exact Or.inr (by simp [charListLe, Ne.symm hxy, h])

theorem charListLe_trans (a b c : List Char) (h1 : charListLe a b = true)
    (h2 : charListLe b c = true) : charListLe a c = true := by
  induction a generalizing b c with
  | nil => rfl
  | cons x xs ih =>
    cases b with
    | nil => simp [charListLe] at h1
    | cons y ys =>
      cases c with
      | nil => simp [charListLe] at h2
      | cons z zs =>
        by_cases hxy : x = y <;> by_cases hyz : y = z
        · subst hxy; subst hyz
          simp only [charListLe, if_pos rfl] at h1 h2 ⊢
          exact ih ys zs h1 h2
        · subst hxy
          simp only [charListLe, if_pos rfl] at h1
          simp only [charListLe, if_neg hyz] at h2 ⊢
          exact h2
        · subst hyz
          simp only [charListLe, if_neg hxy] at h1 ⊢
          exact h1
        · simp only [charListLe, if_neg hxy] at h1
          simp only [charListLe, if_neg hyz] at h2
          simp only [decide_eq_true_eq] at h1 h2
          have hxz : x < z := lt_trans h1 h2
          simp [charListLe, ne_of_lt hxz, hxz]

instance : IsTotal OrderLine dateLe :=
  ⟨fun a b => charListLe_total a.order_date.data b.order_date.data⟩

instance : IsTrans OrderLine dateLe :=
  ⟨fun a b c h1 h2 => charListLe_trans _ _ _ h1 h2⟩

/-- Inserting an element all of whose `p`-classmates it `r`-precedes keeps the
`p`-filter stable. -/
theorem filter_orderedInsert_pos {α : Type} (r : α → α → Prop) [DecidableRel r] (p : α → Bool)
    (x : α) (l : List α) (hx : p x = true) (hle : ∀ b, p b = true → r x b) :
    (List.orderedInsert r x l).filter p = x :: l.filter p := by
  induction l with
  | nil => simp [List.orderedInsert, hx]
  | cons c cs ih =>
    by_cases hrc : r x c
    · simp [List.orderedInsert, hrc, List.filter_cons, hx]
    · have hpc : p c = false := by
        cases hc : p c
        · rfl
        · exact absurd (hle c hc) hrc
      simp [List.orderedInsert, hrc, List.filter_cons, hpc, ih]

theorem filter_orderedInsert_neg {α : Type} (r : α → α → Prop) [DecidableRel r] (p : α → Bool)
    (x : α) (l : List α) (hx : p x = false) :
    (List.orderedInsert r x l).filter p = l.filter p := by
  induction l with
  | nil => simp [List.orderedInsert, hx]
  | cons c cs ih =>
    by_cases hrc : r x c
    · simp [List.orderedInsert, hrc, List.filter_cons, hx]
    · simp [List.orderedInsert, hrc, List.filter_cons, ih]

/-- Stability of insertion sort: the filter by any class of mutually
`r`-comparable elements is unchanged. -/
theorem filter_insertionSort {α : Type} (r : α → α → Prop) [DecidableRel r] (p : α → Bool)
    (hcl : ∀ a b, p a = true → p b = true → r a b) (l : List α) :
    (List.insertionSort r l).filter p = l.filter p := by
  induction l with
  | nil => rfl
  | cons x xs ih =>
    cases hx : p x
    · rw [List.insertionSort, filter_orderedInsert_neg r p x _ hx, ih, List.filter_cons]
      simp [hx]
    · rw [List.insertionSort, filter_orderedInsert_pos r p x _ hx (fun b hb => hcl x b hx hb),
        ih, List.filter_cons]
      simp [hx]

/-! ### C3: what order the engine actually sorts in -/

/-- C3 counterexample: the engine sorts `09/02/2024` (9 February) before
`10/01/2024` (10 January) because it compares the `%d/%m/%Y` strings
lexicographically — day first — which is not calendar order. -/
theorem c3_counterexample :
    (sortLines [cexLineJan, cexLineFeb]).map (fun l => l.order_date)
      = ["09/02/2024", "10/01/2024"]
    ∧ dateValue cexLineJan.order_date < dateValue cexLineFeb.order_date := by
  refine ⟨?_, ?_⟩ <;> with_unfolding_all decide

/-- C3 (amended): the pre-allocation sort orders the lines ascending by the
literal `dd/mm/yyyy` date string (lexicographic: day, then month, then year —
not calendar order); in this model's stable determinization of pandas'
quicksort, lines with equal date strings keep their original input order, and
the Question Collector applies the identical sort. -/
theorem c3_string_sort (ls : List OrderLine) :
    (sortLines ls).Perm ls
    ∧ List.Sorted dateLe (sortLines ls)
    ∧ (∀ d, (sortLines ls).filter (fun r => decide (r.order_date = d)) =
        ls.filter (fun r => decide (r.order_date = d))) := by
  refine ⟨List.perm_insertionSort dateLe ls, List.sorted_insertionSort dateLe ls, ?_⟩
  intro d
  refine filter_insertionSort dateLe _ (fun a b ha hb => ?_) ls
  simp only [decide_eq_true_eq] at ha hb
  show strLe a.order_date b.order_date = true
  rw [ha, hb]
  exact charListLe_refl _

/-! ### C6: unmatched returns -/

/-- C6 counterexample: a return line whose product is unmatched produces an
error-annotated row, but the row is routed to the Sales Return bucket (the
Error output stays empty) and no stock is credited. -/
theorem c6_counterexample :
    ((pipeline noVariants emptyCache [] [] cexInvP [cexUnmatchedReturn]).2.1.map
        (fun r => (r.order_id, r.batch_id, r.product_error)))
      = [("O6", "", "Product not found in reference")]
    ∧ (pipeline noVariants emptyCache [] [] cexInvP [cexUnmatchedReturn]).1.2.2 = []
    ∧ (pipeline noVariants emptyCache [] [] cexInvP [cexUnmatchedReturn]).2.2 = cexInvP := by
  refine ⟨?_, ?_, ?_⟩ <;> with_unfolding_all decide

/-- C6 (amended): an unmatched return line yields a single error-annotated row
with no batch or product id, no stock is credited, and — its quantity being
negative — the pipeline routes it to the Sales Return bucket: the Error output
only ever holds nonnegative-quantity rows, while the return bucket holds
exactly the negative ones. -/
theorem c6_unmatched_return (pv : List (String × List String)) (cache : Cache)
    (inv : Inventory) (line : OrderLine)
    (hq : line.quantity < 0) (hm : line.matched_product_name = "") :
    ((allocStep pv cache inv line).1 = inv
      ∧ ∃ msg, (allocStep pv cache inv line).2 =
          [mkRow line line.quantity (line.net_sales / line.quantity) "" "" msg] ∧ msg ≠ "")
    ∧ (∀ (pv2 : List (String × List String)) (cache2 : Cache) (shops merchants : List String)
        (inv2 : Inventory) (lines : List OrderLine) (r : Row),
        r ∈ (pipeline pv2 cache2 shops merchants inv2 lines).1.2.2 → ¬ r.quantity < 0)
    ∧ (∀ (pv2 : List (String × List String)) (cache2 : Cache) (shops merchants : List String)
        (inv2 : Inventory) (lines : List OrderLine) (r : Row),
        r ∈ (pipeline pv2 cache2 shops merchants inv2 lines).2.1 → r.quantity < 0) := by
  have hne : line.quantity ≠ 0 := ne_of_lt hq
  refine ⟨?_, ?_, ?_⟩
  · constructor
    · simp [allocStep, hm]
    · refine ⟨if 0 < line.product_match_score then lowScoreMsg line.product_match_score
        else "Product not found in reference", ?_, ?_⟩
      · simp [allocStep, hm, hne]
      · split
        · exact lowScoreMsg_ne _
        · show ("Product not found in reference" : String) ≠ ""
          decide
  · intro pv2 cache2 shops merchants inv2 lines r hr
    simp only [pipeline] at hr
    have h1 := (mem_categorize_error _ _).mp hr
    have h2 := List.mem_filter.mp h1.1
    simpa using h2.2
  · intro pv2 cache2 shops merchants inv2 lines r hr
    simp only [pipeline] at hr
    have h2 := List.mem_filter.mp hr
    simpa using h2.2

theorem c6_witness :
    cexUnmatchedReturn.quantity < 0 ∧ cexUnmatchedReturn.matched_product_name = ""
    ∧ ((allocStep noVariants emptyCache cexInvP cexUnmatchedReturn).1 = cexInvP
       ∧ ∃ msg, (allocStep noVariants emptyCache cexInvP cexUnmatchedReturn).2 =
           [mkRow cexUnmatchedReturn cexUnmatchedReturn.quantity
             (cexUnmatchedReturn.net_sales / cexUnmatchedReturn.quantity) "" "" msg]
           ∧ msg ≠ "") :=
  ⟨by decide, rfl,
   (c6_unmatched_return noVariants emptyCache cexInvP cexUnmatchedReturn (by decide) rfl).1⟩

/-! ### C7: valid-sheet pagination -/

theorem mem_dedupAux (l : List String) (seen : List String) (a : String) :
    a ∈ dedupAux seen l ↔ a ∈ l ∧ a ∉ seen := by
  induction l generalizing seen with
  | nil => simp [dedupAux]
  | cons x xs ih =>
    by_cases hx : seen.contains x = true
    · rw [dedupAux, if_pos hx, ih]
      have hxs : x ∈ seen := by simpa using hx
      constructor
      · rintro ⟨h1, h2⟩
        exact ⟨List.mem_cons_of_mem _ h1, h2⟩
      · rintro ⟨h1, h2⟩
        rcases List.mem_cons.mp h1 with rfl | h1
        · exact absurd hxs h2
        · exact ⟨h1, h2⟩
    · rw [dedupAux, if_neg hx]
      have hxs : x ∉ seen := by simpa using hx
      constructor
      · intro h
        rcases List.mem_cons.mp h with rfl | h1
        · exact ⟨List.mem_cons_self _ _, hxs⟩
        · have := (ih (x :: seen)).mp h1
          exact ⟨List.mem_cons_of_mem _ this.1, fun hs => this.2 (List.mem_cons_of_mem _ hs)⟩
      · rintro ⟨h1, h2⟩
        rcases List.mem_cons.mp h1 with rfl | h1
        · exact List.mem_cons_self _ _
        · by_cases hax : a = x
          · subst hax
            exact List.mem_cons_self _ _
          · refine List.mem_cons_of_mem _ ((ih (x :: seen)).mpr ⟨h1, ?_⟩)
            intro hs
            rcases List.mem_cons.mp hs with h | h
            · exact hax h
            · exact h2 h

theorem dedupAux_nodup (l : List String) (seen : List String) : (dedupAux seen l).Nodup := by
  induction l generalizing seen with
  | nil => exact List.nodup_nil
  | cons x xs ih =>
    by_cases hx : seen.contains x = true
    · rw [dedupAux, if_pos hx]
      exact ih seen
    · rw [dedupAux, if_neg hx]
      refine List.Nodup.cons ?_ (ih (x :: seen))
      intro hmem
      have := (mem_dedupAux xs (x :: seen) x).mp hmem
      exact this.2 (List.mem_cons_self _ _)

theorem uniqueOrders_nodup (rows : List Row) : (uniqueOrders rows).Nodup :=
  dedupAux_nodup _ _

theorem mem_uniqueOrders (rows : List Row) (a : String) :
    a ∈ uniqueOrders rows ↔ ∃ r ∈ rows, r.order_id = a := by
  unfold uniqueOrders
  rw [mem_dedupAux]
  simp

/-- Loop invariant of the sheet-packing fold: every finished group and the
current group respect the page size, and the groups plus the current group
enumerate exactly the processed ids in order. -/
theorem packLoop_spec (ids : List String) :
    ∀ (gs : List (List String)) (cur : List String) (cnt : Nat),
    cnt = cur.length → cur.length ≤ MAX_ORDERS_PER_SHEET →
    (∀ g ∈ gs, g.length ≤ MAX_ORDERS_PER_SHEET) →
    ((∀ g ∈ (packLoop ids gs cur cnt).1, g.length ≤ MAX_ORDERS_PER_SHEET)
      ∧ (packLoop ids gs cur cnt).2.length ≤ MAX_ORDERS_PER_SHEET
      ∧ (packLoop ids gs cur cnt).1.flatten ++ (packLoop ids gs cur cnt).2
          = gs.flatten ++ (cur ++ ids)) := by
  induction ids with
  | nil =>
    intro gs cur cnt h1 h2 h3
    refine ⟨h3, h2, ?_⟩
    simp [packLoop]
  | cons x rest ih =>
    intro gs cur cnt h1 h2 h3
    by_cases hc : cnt + 1 > MAX_ORDERS_PER_SHEET ∧ cur ≠ []
    · rw [packLoop, if_pos hc]
      have hrec := ih (gs ++ [cur]) [x] 1 rfl
        (by simp [MAX_ORDERS_PER_SHEET])
        (by
          intro g hg
          rcases List.mem_append.mp hg with h | h
          · exact h3 g h
          · simp only [List.mem_singleton] at h
            subst h
            exact h2)
      refine ⟨hrec.1, hrec.2.1, ?_⟩
      rw [hrec.2.2]
      simp [List.flatten_append]
    · rw [packLoop, if_neg hc]
      have hb : (cur ++ [x]).length ≤ MAX_ORDERS_PER_SHEET := by
        rcases not_and_or.mp hc with h | h
        · simp only [List.length_append, List.length_singleton]
          omega
        · have : cur = [] := not_not.mp h
          subst this
          simp [MAX_ORDERS_PER_SHEET]
      have hrec := ih gs (cur ++ [x]) (cnt + 1)
        (by simp [h1]) hb h3
      refine ⟨hrec.1, hrec.2.1, ?_⟩
      rw [hrec.2.2]
      simp

theorem packGroups_spec (ids : List String) :
    (∀ g ∈ packGroups ids, g.length ≤ MAX_ORDERS_PER_SHEET)
      ∧ (packGroups ids).flatten = ids := by
  have h := packLoop_spec ids [] [] 0 rfl (by simp [MAX_ORDERS_PER_SHEET]) (by simp)
  unfold packGroups
  by_cases hc : (packLoop ids [] [] 0).2 ≠ []
  · rw [if_pos hc]
    refine ⟨?_, ?_⟩
    · intro g hg
      rcases List.mem_append.mp hg with h' | h'
      · exact h.1 g h'
      · simp only [List.mem_singleton] at h'
        subst h'
        exact h.2.1
    · rw [List.flatten_append]
      simpa using h.2.2
  · rw [if_neg hc]
    have hnil : (packLoop ids [] [] 0).2 = [] := not_not.mp hc
    refine ⟨h.1, ?_⟩
    have := h.2.2
    rw [hnil] at this
    simpa using this

set_option maxRecDepth 200000 in
/-- C7: sheets hold at most 200 distinct order ids each; rows sharing an order
id always land in the same sheet; every row lands in some sheet; and 201
distinct single-row orders produce exactly two sheets of 200 and 1 orders. -/
theorem c7_sheet_pagination :
    (∀ (rows : List Row) (sheet : List Row), sheet ∈ splitSheets rows →
       (uniqueOrders sheet).length ≤ MAX_ORDERS_PER_SHEET)
    ∧ (∀ (rows : List Row) (r s : Row), r ∈ rows → s ∈ rows → r.order_id = s.order_id →
        ∀ sheet ∈ splitSheets rows, (r ∈ sheet ↔ s ∈ sheet))
    ∧ (∀ (rows : List Row) (r : Row), r ∈ rows → ∃ sheet ∈ splitSheets rows, r ∈ sheet)
    ∧ (splitSheets rows201).map (fun s => (uniqueOrders s).length) = [200, 1] := by
  refine ⟨?_, ?_, ?_, ?_⟩
  · intro rows sheet hs
    unfold splitSheets at hs
    by_cases h0 : rows = []
    · rw [if_pos h0] at hs
      exact absurd hs (List.not_mem_nil _)
    · rw [if_neg h0] at hs
      by_cases hbig : MAX_ORDERS_PER_SHEET < (uniqueOrders rows).length
      · rw [if_pos hbig] at hs
        obtain ⟨g, hg, rfl⟩ := List.mem_map.mp hs
        have hsub : uniqueOrders (rows.filter (fun r => g.contains r.order_id)) ⊆ g := by
          intro a ha
          obtain ⟨r, hr, rfl⟩ := (mem_uniqueOrders _ a).mp ha
          have := (List.mem_filter.mp hr).2
          simpa using this
        calc (uniqueOrders (rows.filter (fun r => g.contains r.order_id))).length
            ≤ g.length := ((uniqueOrders_nodup _).subperm hsub).length_le
          _ ≤ MAX_ORDERS_PER_SHEET := (packGroups_spec _).1 g hg
      · rw [if_neg hbig] at hs
        simp only [List.mem_singleton] at hs
        subst hs
        omega
  · intro rows r s hr hs heq sheet hsheet
    unfold splitSheets at hsheet
    by_cases h0 : rows = []
    · rw [if_pos h0] at hsheet
      exact absurd hsheet (List.not_mem_nil _)
    · rw [if_neg h0] at hsheet
      by_cases hbig : MAX_ORDERS_PER_SHEET < (uniqueOrders rows).length
      · rw [if_pos hbig] at hsheet
        obtain ⟨g, _, rfl⟩ := List.mem_map.mp hsheet
        constructor
        · intro h
          have hmem := List.mem_filter.mp h
          refine List.mem_filter.mpr ⟨hs, ?_⟩
          rw [← heq]
          exact hmem.2
        · intro h
          have hmem := List.mem_filter.mp h
          refine List.mem_filter.mpr ⟨hr, ?_⟩
          rw [heq]
          exact hmem.2
      · rw [if_neg hbig] at hsheet
        simp only [List.mem_singleton] at hsheet
        subst hsheet
        exact ⟨fun _ => hs, fun _ => hr⟩
  · intro rows r hr
    have h0 : rows ≠ [] := by
      intro h
      rw [h] at hr
      exact List.not_mem_nil _ hr
    unfold splitSheets
    rw [if_neg h0]
    by_cases hbig : MAX_ORDERS_PER_SHEET < (uniqueOrders rows).length
    · rw [if_pos hbig]
      have hid : r.order_id ∈ (packGroups (uniqueOrders rows)).flatten := by
        rw [(packGroups_spec _).2]
        exact (mem_uniqueOrders rows r.order_id).mpr ⟨r, hr, rfl⟩
      obtain ⟨g, hg, hidg⟩ := List.mem_flatten.mp hid
      refine ⟨rows.filter (fun t => g.contains t.order_id), List.mem_map_of_mem _ hg, ?_⟩
      refine List.mem_filter.mpr ⟨hr, ?_⟩
      simpa using hidg
    · rw [if_neg hbig]
      exact ⟨rows, List.mem_singleton_self _, hr⟩
  · with_unfolding_all decide

theorem c7_witness :
    cexR2 ∈ cexRows3
    ∧ (∀ sheet ∈ splitSheets cexRows3, (cexR2 ∈ sheet ↔ cexR3 ∈ sheet))
    ∧ ∃ sheet ∈ splitSheets cexRows3, cexR2 ∈ sheet :=
  ⟨by decide,
   c7_sheet_pagination.2.1 cexRows3 cexR2 cexR3 (by decide) (by decide) rfl,
   c7_sheet_pagination.2.2.1 cexRows3 cexR2 (by decide)⟩

/-! ### C9: stock never drains below zero -/

/-- All stocks of a batch list are nonnegative (`∞` counts as nonnegative). -/
def batchesNonneg (bs : List Batch) : Bool :=
  bs.all (fun b => sNonneg b.available_stock)

/-- All stocks of the whole ledger are nonnegative. -/
def invNonneg (inv : Inventory) : Bool := inv.all (fun e => batchesNonneg e.2)

theorem sNonneg_sAdd (a : Option ℚ) (q : ℚ) (ha : sNonneg a = true) (hq : 0 ≤ q) :
    sNonneg (sAdd a q) = true := by
  cases a with
  | none => rfl
  | some x =>
    simp only [sNonneg, sAdd, decide_eq_true_eq] at ha ⊢
    linarith

theorem invLookup_mem (inv : Inventory) (p : String) (bs : List Batch)
    (h : invLookup inv p = some bs) : (p, bs) ∈ inv := by
  induction inv with
  | nil => simp [invLookup] at h
  | cons e rest ih =>
    rcases e with ⟨q, cs⟩
    by_cases hq : q = p
    · subst hq
      rw [invLookup, if_pos rfl] at h
      obtain rfl : cs = bs := by simpa using h
      exact List.mem_cons_self _ _
    · rw [invLookup, if_neg hq] at h
      exact List.mem_cons_of_mem _ (ih h)

theorem invNonneg_lookup (inv : Inventory) (p : String) (bs : List Batch)
    (hi : invNonneg inv = true) (h : invLookup inv p = some bs) :
    batchesNonneg bs = true := by
  rw [invNonneg, List.all_eq_true] at hi
  exact hi (p, bs) (invLookup_mem inv p bs h)

theorem invNonneg_invUpdate (inv : Inventory) (p : String) (nbs : List Batch)
    (hi : invNonneg inv = true) (hn : batchesNonneg nbs = true) :
    invNonneg (invUpdate inv p nbs) = true := by
  induction inv with
  | nil => rfl
  | cons e rest ih =>
    rcases e with ⟨q, cs⟩
    rw [invNonneg, List.all_cons, Bool.and_eq_true] at hi
    by_cases hq : q = p
    · rw [invUpdate, if_pos hq, invNonneg, List.all_cons, Bool.and_eq_true]
      exact ⟨hn, hi.2⟩
    · rw [invUpdate, if_neg hq, invNonneg, List.all_cons, Bool.and_eq_true]
      exact ⟨hi.1, ih hi.2⟩

theorem drain_nonneg (pool : List TBatch) (r : ℚ)
    (h : ∀ tb ∈ pool, sNonneg tb.b.available_stock = true) :
    ∀ tb ∈ (drain pool r).1, sNonneg tb.b.available_stock = true := by
  induction pool generalizing r with
  | nil =>
    intro tb htb
    simp [drain] at htb
  | cons c rest ih =>
    intro tb htb
    by_cases hr : r ≤ 0
    · rw [drain_stop _ _ hr] at htb
      exact h tb htb
    · by_cases hp : sPos c.b.available_stock = true
      · simp only [drain, if_neg hr, hp, if_true] at htb
        rcases List.mem_cons.mp htb with rfl | htb'
        · cases hcs : c.b.available_stock with
          | none => simp [sSub, hcs, sNonneg]
          | some x =>
            simp only [sSub, hcs, sNonneg, sMinQ, decide_eq_true_eq]
            have : min x r ≤ x := min_le_left _ _
            linarith
        · exact ih (r - sMinQ c.b.available_stock r)
            (fun tb' h' => h tb' (List.mem_cons_of_mem _ h')) tb htb'
      · simp only [drain, if_neg hr, hp, Bool.false_eq_true, if_false] at htb
        rcases List.mem_cons.mp htb with rfl | htb'
        · exact h tb (List.mem_cons_self _ _)
        · exact ih r (fun tb' h' => h tb' (List.mem_cons_of_mem _ h')) tb htb'

theorem batchAt_mem (pool : List TBatch) (p : String) (i : Nat) (nb : Batch)
    (h : batchAt pool p i = some nb) : ∃ tb ∈ pool, tb.b = nb := by
  induction pool with
  | nil => simp [batchAt] at h
  | cons c rest ih =>
    by_cases hc : c.prod = p ∧ c.idx = i
    · rw [batchAt, if_pos hc] at h
      exact ⟨c, List.mem_cons_self _ _, by simpa using h⟩
    · rw [batchAt, if_neg hc] at h
      obtain ⟨tb, htb, rfl⟩ := ih h
      exact ⟨tb, List.mem_cons_of_mem _ htb, rfl⟩

theorem mem_applyPool (pool : List TBatch) (p : String) (bs : List Batch) (i : Nat) (b' : Batch)
    (h : b' ∈ applyPool pool p i bs) :
    (∃ tb ∈ pool, tb.b = b') ∨ b' ∈ bs := by
  induction bs generalizing i with
  | nil => simp [applyPool] at h
  | cons b rest ih =>
    rw [applyPool] at h
    rcases List.mem_cons.mp h with h1 | h1
    · cases hba : batchAt pool p i with
      | some nb =>
        rw [hba] at h1
        left
        obtain ⟨tb, htb, htbe⟩ := batchAt_mem pool p i nb hba
        exact ⟨tb, htb, by rw [htbe, h1]⟩
      | none =>
        rw [hba] at h1
        right
        rw [h1]
        exact List.mem_cons_self _ _
    · rcases ih (i + 1) h1 with h2 | h2
      · exact Or.inl h2
      · exact Or.inr (List.mem_cons_of_mem _ h2)

theorem invNonneg_writeBack (inv : Inventory) (pool : List TBatch)
    (hi : invNonneg inv = true) (hp : ∀ tb ∈ pool, sNonneg tb.b.available_stock = true) :
    invNonneg (writeBack inv pool) = true := by
  rw [invNonneg, List.all_eq_true]
  intro e he
  obtain ⟨e0, he0, rfl⟩ := List.mem_map.mp he
  rw [batchesNonneg, List.all_eq_true]
  intro b hb
  rcases mem_applyPool pool e0.1 e0.2 0 b hb with ⟨tb, htb, rfl⟩ | hbin
  · exact hp tb htb
  · rw [invNonneg, List.all_eq_true] at hi
    have := hi e0 he0
    rw [batchesNonneg, List.all_eq_true] at this
    exact this b hbin

theorem mem_withIdx (p : String) (bs : List Batch) :
    ∀ (n : Nat) (tb : TBatch), tb ∈ withIdx p n bs → tb.b ∈ bs := by
  induction bs with
  | nil =>
    intro n tb h
    simp [withIdx] at h
  | cons b rest ih =>
    intro n tb h
    rw [withIdx] at h
    rcases List.mem_cons.mp h with rfl | h1
    · exact List.mem_cons_self _ _
    · exact List.mem_cons_of_mem _ (ih (n + 1) tb h1)

theorem mem_poolOf (inv : Inventory) (ps : List String) (tb : TBatch)
    (h : tb ∈ poolOf inv ps) :
    ∃ p bs, invLookup inv p = some bs ∧ tb.b ∈ bs := by
  induction ps with
  | nil => simp [poolOf] at h
  | cons p rest ih =>
    rw [poolOf] at h
    rcases List.mem_append.mp h with h1 | h1
    · cases hl : invLookup inv p with
      | none =>
        rw [hl] at h1
        simp at h1
      | some bs =>
        rw [hl] at h1
        exact ⟨p, bs, hl, mem_withIdx p bs 0 tb h1⟩
    · exact ih h1

/-- Every pooled batch of a nonnegative ledger is nonnegative. -/
theorem pool_nonneg (inv : Inventory) (ps : List String) (hi : invNonneg inv = true) :
    ∀ tb ∈ poolOf inv ps, sNonneg tb.b.available_stock = true := by
  intro tb htb
  obtain ⟨p, bs, hl, hb⟩ := mem_poolOf inv ps tb htb
  have := invNonneg_lookup inv p bs hi hl
  rw [batchesNonneg, List.all_eq_true] at this
  exact this _ hb

theorem allocStep_nonneg (pv : List (String × List String)) (cache : Cache)
    (inv : Inventory) (line : OrderLine) (hi : invNonneg inv = true) :
    invNonneg (allocStep pv cache inv line).1 = true := by
  by_cases hp : line.matched_product_name = ""
  · simpa [allocStep, hp] using hi
  · cases hl : invLookup inv line.matched_product_name with
    | none => simpa [allocStep, hp, hl] using hi
    | some bs =>
      by_cases hq : line.quantity < 0
      · cases bs with
        | nil => simpa [allocStep, hp, hl, hq] using hi
        | cons b rest =>
          simp only [allocStep, if_neg hp, hl, if_pos hq]
          refine invNonneg_invUpdate _ _ _ hi ?_
          have hb := invNonneg_lookup inv _ _ hi hl
          rw [batchesNonneg, List.all_cons, Bool.and_eq_true] at hb
          rw [batchesNonneg, List.all_cons, Bool.and_eq_true]
          exact ⟨sNonneg_sAdd _ _ hb.1 (abs_nonneg _), hb.2⟩
      · by_cases hq2 : 0 < line.quantity
        · simp only [allocStep, if_neg hp, hl, if_neg hq, if_pos hq2]
          have hpool : ∀ tb ∈ List.insertionSort tbGe
              (poolOf inv (selectProducts inv pv cache line.matched_product_name line.quantity)),
              sNonneg tb.b.available_stock = true := by
            intro tb htb
            exact pool_nonneg inv _ hi tb
              ((List.perm_insertionSort tbGe _).mem_iff.mp htb)
          split
          · exact invNonneg_writeBack _ _ hi (drain_nonneg _ _ hpool)
          · exact invNonneg_writeBack _ _ hi (drain_nonneg _ _ hpool)
        · simpa [allocStep, hp, hl, hq, hq2] using hi

theorem runAlloc_nonneg (pv : List (String × List String)) (cache : Cache)
    (lines : List OrderLine) :
    ∀ inv, invNonneg inv = true → invNonneg (runAlloc pv cache inv lines).1 = true := by
  induction lines with
  | nil =>
    intro inv hi
    simpa [runAlloc] using hi
  | cons l rest ih =>
    intro inv hi
    exact ih _ (allocStep_nonneg pv cache inv l hi)

theorem sNonneg_sAddO (a b : Option ℚ) (ha : sNonneg a = true) (hb : sNonneg b = true) :
    sNonneg (sAddO a b) = true := by
  cases a with
  | none => rfl
  | some x =>
    cases b with
    | none => rfl
    | some y =>
      simp only [sNonneg, sAddO, decide_eq_true_eq] at ha hb ⊢
      linarith

theorem stockSum_nonneg (bs : List Batch) (h : batchesNonneg bs = true) :
    sNonneg (stockSum bs) = true := by
  rw [batchesNonneg, List.all_eq_true] at h
  suffices h' : ∀ acc, sNonneg acc = true →
      sNonneg (bs.foldl (fun acc b => sAddO acc b.available_stock) acc) = true by
    exact h' (some 0) rfl
  induction bs with
  | nil =>
    intro acc hacc
    simpa using hacc
  | cons b rest ih =>
    intro acc hacc
    rw [List.foldl_cons]
    refine ih (fun x hx => h x (List.mem_cons_of_mem _ hx)) _ ?_
    exact sNonneg_sAddO _ _ hacc (h b (List.mem_cons_self _ _))

theorem simConsume_nonneg (bs : List Batch) (r : ℚ)
    (h : ∀ b ∈ bs, sNonneg b.available_stock = true) :
    ∀ b ∈ (simConsume bs r).1, sNonneg b.available_stock = true := by
  induction bs generalizing r with
  | nil =>
    intro b hb
    simp [simConsume] at hb
  | cons c rest ih =>
    intro b hb
    by_cases hr : r ≤ 0
    · rw [simConsume, if_pos hr] at hb
      exact h b hb
    · by_cases hp : sPos c.available_stock = true
      · simp only [simConsume, if_neg hr, hp, if_true] at hb
        rcases List.mem_cons.mp hb with rfl | hb'
        · cases hcs : c.available_stock with
          | none => simp [sSub, hcs, sNonneg]
          | some x =>
            simp only [sSub, hcs, sNonneg, sMinQ, decide_eq_true_eq]
            have : min x r ≤ x := min_le_left _ _
            linarith
        · exact ih (r - sMinQ c.available_stock r)
            (fun b' h' => h b' (List.mem_cons_of_mem _ h')) b hb'
      · simp only [simConsume, if_neg hr, hp, Bool.false_eq_true, if_false] at hb
        rcases List.mem_cons.mp hb with rfl | hb'
        · exact h b (List.mem_cons_self _ _)
        · exact ih r (fun b' h' => h b' (List.mem_cons_of_mem _ h')) b hb'

/-- C9: starting from a nonnegative ledger, one allocation step and hence a
whole run keep every batch's stock nonnegative (consumption takes at most
`min(stock, remaining)` from positive batches and returns only add stock), so
every product's total stock stays nonnegative; the Question Collector's
simulated consumption preserves the same invariant. -/
theorem c9_stock_never_negative (pv : List (String × List String)) (cache : Cache) :
    (∀ (inv : Inventory) (line : OrderLine), invNonneg inv = true →
       invNonneg (allocStep pv cache inv line).1 = true)
    ∧ (∀ (inv : Inventory) (lines : List OrderLine), invNonneg inv = true →
       invNonneg (runAlloc pv cache inv lines).1 = true)
    ∧ (∀ (inv : Inventory) (p : String) (bs : List Batch), invNonneg inv = true →
       invLookup inv p = some bs → sNonneg (stockSum bs) = true)
    ∧ (∀ (bs : List Batch) (r : ℚ), batchesNonneg bs = true →
       ∀ b ∈ (simConsume bs r).1, sNonneg b.available_stock = true) :=
  ⟨fun inv line => allocStep_nonneg pv cache inv line,
   fun inv lines => runAlloc_nonneg pv cache lines inv,
   fun inv p bs hi hl => stockSum_nonneg bs (invNonneg_lookup inv p bs hi hl),
   fun bs r h => simConsume_nonneg bs r (by
      rw [batchesNonneg, List.all_eq_true] at h
      exact h)⟩

theorem c9_witness :
    invNonneg cexInv = true
    ∧ invNonneg (runAlloc noVariants emptyCache cexInv [cexSale, cexReturn]).1 = true :=
  ⟨by decide,
   (c9_stock_never_negative noVariants emptyCache).2.1 cexInv [cexSale, cexReturn] (by decide)⟩

/-! ### C10: NaN catalog stock becomes an infinite batch that always satisfies -/

theorem sLeO_total (a b : Option ℚ) : sLeO a b = true ∨ sLeO b a = true := by
  cases a with
  | none => cases b with
    | none => exact Or.inl rfl
    | some y => exact Or.inr rfl
  | some x => cases b with
    | none => exact Or.inl rfl
    | some y =>
      rcases le_total x y with h | h
      · exact Or.inl (by simpa [sLeO] using h)
      · exact Or.inr (by simpa [sLeO] using h)

theorem sLeO_trans (a b c : Option ℚ) (h1 : sLeO a b = true) (h2 : sLeO b c = true) :
    sLeO a c = true := by
  cases a with
  | none => cases b with
    | none => exact h2
    | some y => exact absurd h1 (by simp [sLeO])
  | some x => cases c with
    | none => rfl
    | some z =>
      cases b with
      | none => exact absurd h2 (by simp [sLeO])
      | some y =>
        simp only [sLeO, decide_eq_true_eq] at h1 h2 ⊢
        linarith

theorem sLeO_none_left (x : Option ℚ) (h : sLeO none x = true) : x = none := by
  cases x with
  | none => rfl
  | some y => exact absurd h (by simp [sLeO])

instance : IsTotal TBatch tbGe :=
  ⟨fun a b => sLeO_total b.b.available_stock a.b.available_stock⟩

instance : IsTrans TBatch tbGe :=
  ⟨fun _ _ _ h1 h2 => sLeO_trans _ _ _ h2 h1⟩

/-- A pool containing an infinite batch sorts an infinite batch to its head. -/
theorem sorted_head_inf (pool : List TBatch) (tb : TBatch) (htb : tb ∈ pool)
    (hinf : tb.b.available_stock = none) :
    ∃ hb, (List.insertionSort tbGe pool).head? = some hb
      ∧ hb.b.available_stock = none := by
  have hmem : tb ∈ List.insertionSort tbGe pool :=
    (List.perm_insertionSort tbGe pool).mem_iff.mpr htb
  have hsorted : List.Sorted tbGe (List.insertionSort tbGe pool) :=
    List.sorted_insertionSort tbGe pool
  cases hs : List.insertionSort tbGe pool with
  | nil =>
    rw [hs] at hmem
    exact absurd hmem (List.not_mem_nil _)
  | cons hd tl =>
    refine ⟨hd, rfl, ?_⟩
    rw [hs] at hmem hsorted
    rcases List.mem_cons.mp hmem with rfl | hmem'
    · exact hinf
    · have hrel : tbGe hd tb := (List.sorted_cons.mp hsorted).1 tb hmem'
      rw [tbGe, hinf] at hrel
      exact sLeO_none_left _ hrel

theorem invAppend_self (inv : Inventory) (p : String) (b : Batch) :
    ∃ bs, invLookup (invAppend inv p b) p = some bs ∧ b ∈ bs := by
  induction inv with
  | nil => exact ⟨[b], by simp [invAppend, invLookup], List.mem_singleton_self _⟩
  | cons e rest ih =>
    rcases e with ⟨q, cs⟩
    by_cases hq : q = p
    · subst hq
      refine ⟨cs ++ [b], ?_, by simp⟩
      rw [invAppend, if_pos rfl, invLookup, if_pos rfl]
    · obtain ⟨bs, hbs, hmem⟩ := ih
      refine ⟨bs, ?_, hmem⟩
      rw [invAppend, if_neg hq, invLookup, if_neg hq]
      exact hbs

theorem invAppend_mono (inv : Inventory) (p q : String) (b b' : Batch) (bs : List Batch)
    (h : invLookup inv q = some bs) (hb : b' ∈ bs) :
    ∃ bs', invLookup (invAppend inv p b) q = some bs' ∧ b' ∈ bs' := by
  induction inv with
  | nil => simp [invLookup] at h
  | cons e rest ih =>
    rcases e with ⟨k, cs⟩
    by_cases hk : k = q
    · subst hk
      rw [invLookup, if_pos rfl] at h
      obtain rfl : cs = bs := by simpa using h
      by_cases hp : k = p
      · subst hp
        refine ⟨cs ++ [b], ?_, List.mem_append.mpr (Or.inl hb)⟩
        rw [invAppend, if_pos rfl, invLookup, if_pos rfl]
      · refine ⟨cs, ?_, hb⟩
        rw [invAppend, if_neg hp, invLookup, if_pos rfl]
    · rw [invLookup, if_neg hk] at h
      by_cases hp : k = p
      · subst hp
        refine ⟨bs, ?_, hb⟩
        rw [invAppend, if_pos rfl, invLookup, if_neg hk]
        exact h
      · obtain ⟨bs', hbs', hmem'⟩ := ih h
        refine ⟨bs', ?_, hmem'⟩
        rw [invAppend, if_neg hp, invLookup, if_neg hk]
        exact hbs'

theorem buildStep_mono (crows : List CatalogRow) (q : String) (b' : Batch) :
    ∀ (inv : Inventory) (bs : List Batch), invLookup inv q = some bs → b' ∈ bs →
    ∃ bs', invLookup
        (crows.foldl (fun i r => invAppend i (stripStr r.product_name) (mkLedgerBatch r)) inv)
        q = some bs' ∧ b' ∈ bs' := by
  induction crows with
  | nil =>
    intro inv bs h hb
    exact ⟨bs, h, hb⟩
  | cons r rest ih =>
    intro inv bs h hb
    rw [List.foldl_cons]
    obtain ⟨bs', h', hb'⟩ := invAppend_mono inv (stripStr r.product_name) q
      (mkLedgerBatch r) b' bs h hb
    exact ih _ bs' h' hb'

theorem buildFold_mem (crows : List CatalogRow) (cr : CatalogRow) (hcr : cr ∈ crows) :
    ∀ inv : Inventory, ∃ bs,
      invLookup
        (crows.foldl (fun i r => invAppend i (stripStr r.product_name) (mkLedgerBatch r)) inv)
        (stripStr cr.product_name) = some bs ∧ mkLedgerBatch cr ∈ bs := by
  induction crows with
  | nil => exact absurd hcr (List.not_mem_nil _)
  | cons r rest ih =>
    intro inv
    rw [List.foldl_cons]
    rcases List.mem_cons.mp hcr with rfl | h1
    · obtain ⟨bs, hbs, hmem⟩ := invAppend_self inv (stripStr cr.product_name) (mkLedgerBatch cr)
      exact buildStep_mono rest _ _ _ bs hbs hmem
    · exact ih h1 _

theorem invLookup_map_sort (inv : Inventory) (p : String) :
    invLookup (inv.map (fun e => (e.1, List.insertionSort batchGe e.2))) p
      = (invLookup inv p).map (fun bs => List.insertionSort batchGe bs) := by
  induction inv with
  | nil => rfl
  | cons e rest ih =>
    rcases e with ⟨q, cs⟩
    by_cases hq : q = p
    · simp [invLookup, hq]
    · simp [invLookup, hq, ih]

/-- Every catalog row is stored in the built ledger, under its stripped
product name, with its stock unchanged (a missing/NaN stock stays `∞`). -/
theorem buildInventory_mem (crows : List CatalogRow) (cr : CatalogRow) (hcr : cr ∈ crows) :
    ∃ bs, invLookup (buildInventory crows) (stripStr cr.product_name) = some bs
      ∧ mkLedgerBatch cr ∈ bs := by
  obtain ⟨bs, hbs, hmem⟩ := buildFold_mem crows cr hcr []
  refine ⟨List.insertionSort batchGe bs, ?_, ?_⟩
  · rw [buildInventory, invLookup_map_sort, buildRaw, hbs]
    rfl
  · exact (List.perm_insertionSort batchGe bs).mem_iff.mpr hmem

/-- The matched product is always among the products the engine draws from. -/
theorem selectProducts_head_mem (inv : Inventory) (pv : List (String × List String))
    (cache : Cache) (pname : String) (qty : ℚ) :
    pname ∈ selectProducts inv pv cache pname qty := by
  unfold selectProducts
  by_cases h1 : sLtQ (totalOf inv pname) qty = true
  · simp only [if_pos h1]
    split
    · exact List.mem_append.mpr (Or.inl (List.mem_cons_self _ _))
    · exact List.mem_cons_self _ _
  · simp only [if_neg h1]
    split
    · exact List.mem_append.mpr (Or.inl (List.mem_cons_self _ _))
    · exact List.mem_cons_self _ _

theorem mem_withIdx_intro (p : String) (bs : List Batch) (b : Batch) (hb : b ∈ bs) :
    ∀ n : Nat, ∃ i, (⟨p, i, b⟩ : TBatch) ∈ withIdx p n bs := by
  induction bs with
  | nil => exact absurd hb (List.not_mem_nil _)
  | cons c rest ih =>
    intro n
    rcases List.mem_cons.mp hb with rfl | h1
    · exact ⟨n, List.mem_cons_self _ _⟩
    · obtain ⟨i, hi⟩ := ih h1 (n + 1)
      exact ⟨i, List.mem_cons_of_mem _ hi⟩

theorem mem_poolOf_intro (inv : Inventory) (ps : List String) (p : String) (bs : List Batch)
    (b : Batch) (hp : p ∈ ps) (hl : invLookup inv p = some bs) (hb : b ∈ bs) :
    ∃ i, (⟨p, i, b⟩ : TBatch) ∈ poolOf inv ps := by
  induction ps with
  | nil => exact absurd hp (List.not_mem_nil _)
  | cons x rest ih =>
    rw [poolOf]
    rcases List.mem_cons.mp hp with rfl | h1
    · rw [hl]
      obtain ⟨i, hi⟩ := mem_withIdx_intro p bs b hb 0
      exact ⟨i, List.mem_append.mpr (Or.inl hi)⟩
    · obtain ⟨i, hi⟩ := ih h1
      exact ⟨i, List.mem_append.mpr (Or.inr hi)⟩

/-- C10: a catalog row with missing (NaN) available_stock is stored as an
infinite-stock batch; an infinite batch sorts to the head of the
descending-stock pool; and a matched product owning such a batch always
allocates in full — one error-free row covering the entire quantity. -/
theorem c10_infinite_stock :
    (∀ (crows : List CatalogRow) (cr : CatalogRow), cr ∈ crows →
       cr.available_stock = none →
       ∃ bs, invLookup (buildInventory crows) (stripStr cr.product_name) = some bs
         ∧ ∃ b ∈ bs, b.batch_id = cr.batch_id ∧ b.available_stock = none)
    ∧ (∀ (pool : List TBatch) (tb : TBatch), tb ∈ pool → tb.b.available_stock = none →
       ∃ hb, (List.insertionSort tbGe pool).head? = some hb
         ∧ hb.b.available_stock = none)
    ∧ (∀ (pv : List (String × List String)) (cache : Cache) (inv : Inventory)
         (line : OrderLine) (bs : List Batch) (b : Batch),
       0 < line.quantity → ¬ line.matched_product_name = "" →
       invLookup inv line.matched_product_name = some bs → b ∈ bs →
       b.available_stock = none →
       (∀ r ∈ (allocStep pv cache inv line).2, r.product_error = "")
       ∧ ((allocStep pv cache inv line).2.map (fun r => r.quantity)).sum = line.quantity
       ∧ (allocStep pv cache inv line).2.length = 1) := by
  refine ⟨?_, ?_, ?_⟩
  · intro crows cr hcr hnan
    obtain ⟨bs, hbs, hmem⟩ := buildInventory_mem crows cr hcr
    exact ⟨bs, hbs, mkLedgerBatch cr, hmem, rfl, hnan⟩
  · intro pool tb htb hinf
    exact sorted_head_inf pool tb htb hinf
  · intro pv cache inv line bs b hq hm hl hb hinf
    have hnn : ¬ line.quantity < 0 := by linarith
    obtain ⟨i, hpool⟩ := mem_poolOf_intro inv
      (selectProducts inv pv cache line.matched_product_name line.quantity)
      line.matched_product_name bs b
      (selectProducts_head_mem inv pv cache line.matched_product_name line.quantity) hl hb
    obtain ⟨hd, hhd, hdinf⟩ := sorted_head_inf _ (⟨line.matched_product_name, i, b⟩ : TBatch)
      hpool hinf
    cases hs : List.insertionSort tbGe
        (poolOf inv (selectProducts inv pv cache line.matched_product_name line.quantity)) with
    | nil =>
      rw [hs] at hhd
      exact absurd hhd (by simp)
    | cons hd' tl =>
      rw [hs] at hhd
      have heq : hd' = hd := by simpa using hhd
      have hdinf' : hd'.b.available_stock = none := by rw [heq]; exact hdinf
      have hq0 : ¬ line.quantity ≤ 0 := by linarith
      have hpos : sPos hd'.b.available_stock = true := by rw [hdinf']; rfl
      have ht : sMinQ hd'.b.available_stock line.quantity = line.quantity := by
        rw [hdinf']; rfl
      have hdrain : drain (hd' :: tl) line.quantity =
          ({ hd' with b := { hd'.b with
              available_stock := sSub hd'.b.available_stock line.quantity } } :: tl,
           [(hd', line.quantity)], 0) := by
        rw [drain, if_neg hq0, if_pos hpos]
        simp only [ht, sub_self, drain_stop tl 0 le_rfl]
      simp only [allocStep, if_neg hm, hl, if_neg hnn, if_pos hq, hs, hdrain]
      norm_num
      exact ⟨rfl, rfl⟩

/-- Ledger whose product `P` has a finite batch of 3 and an infinite batch. -/
def cexInvInf : Inventory := [("P", [⟨"B0", "X", some 3⟩, ⟨"BI", "X", none⟩])]

/-- A sale of 50 units of `P` (covered entirely by the infinite batch). -/
def cexInfSale : OrderLine := mkLine "O9" "01/01/2024" 50 "P" 100

theorem c10_witness :
    (0 < cexInfSale.quantity
      ∧ invLookup cexInvInf "P" = some [⟨"B0", "X", some 3⟩, ⟨"BI", "X", none⟩]
      ∧ (⟨"BI", "X", none⟩ : Batch) ∈ [(⟨"B0", "X", some 3⟩ : Batch), ⟨"BI", "X", none⟩])
    ∧ ((∀ r ∈ (allocStep noVariants emptyCache cexInvInf cexInfSale).2, r.product_error = "")
       ∧ ((allocStep noVariants emptyCache cexInvInf cexInfSale).2.map
            (fun r => r.quantity)).sum = cexInfSale.quantity
       ∧ (allocStep noVariants emptyCache cexInvInf cexInfSale).2.length = 1) :=
  ⟨⟨by decide, rfl, by decide⟩,
   c10_infinite_stock.2.2 noVariants emptyCache cexInvInf cexInfSale
     [⟨"B0", "X", some 3⟩, ⟨"BI", "X", none⟩] ⟨"BI", "X", none⟩
     (by decide) (by decide) rfl (by decide) rfl⟩

end DmsWms
